import Mathlib

/-!
Verification of the Solana address-lookup-table demo script (src/index.js).

The script itself is a linear sequence of calls into the external
solana web3.js SDK.  The repository code (createAndSendV0Tx, createALTs,
addAddress, fetchALTs, compareTxSize, main) is embedded directly; the SDK
operations it delegates to (message compilation, serialization, instruction
builders, program-derived addresses) are absent from the repository and are
modelled from the spec and the versioned-transaction wire format the spec
and README reference.  RPC effects are embedded as an explicit environment
plus an event trace.
-/

namespace AltDemo

/-- A public key: an opaque identifier that serializes to 32 bytes. -/
structure Pubkey where
  bytes : List Nat
deriving DecidableEq

/-- Well-formedness of a public key: exactly 32 bytes. -/
def Pubkey.wf (p : Pubkey) : Prop := p.bytes.length = 32

instance (p : Pubkey) : Decidable p.wf := by
  unfold Pubkey.wf
  infer_instance

/-- The base-58 alphabet used by the bs58 package. -/
def base58Alphabet : List Char :=
  "123456789ABCDEFGHJKLMNPQRSTUVWXYZabcdefghijkmnopqrstuvwxyz".toList

/-- Value of one base-58 digit.  The script only ever decodes fixed, valid
literals, so the invalid-character branch (bs58 throws) is never taken and
is mapped to 0 here. -/
def base58DigitValue (c : Char) : Nat :=
  (List.findIdx? (fun d => d = c) base58Alphabet).getD 0

/-- The whole string read as a base-58 number. -/
def base58DecodeNat (cs : List Char) : Nat :=
  cs.foldl (fun n c => n * 58 + base58DigitValue c) 0

/-- Big-endian byte expansion of a natural number, with explicit fuel so the
definition is structurally recursive. -/
def natToBytesBEAux : Nat → Nat → List Nat → List Nat
  | 0, _, acc => acc
  | fuel + 1, n, acc =>
      if n = 0 then acc else natToBytesBEAux fuel (n / 256) (n % 256 :: acc)

/-- Leading 1-characters of a base-58 string, each denoting a zero byte. -/
def countLeadingOnes : List Char → Nat
  | [] => 0
  | c :: rest => if c = '1' then countLeadingOnes rest + 1 else 0

/-- bs58 decode: leading zero bytes for leading 1-characters, then the
big-endian bytes of the base-58 value. -/
def base58Decode (s : String) : List Nat :=
  let cs := s.toList
  List.replicate (countLeadingOnes cs) 0 ++ natToBytesBEAux cs.length (base58DecodeNat cs) []

/-- PublicKey construction from a base-58 string. -/
def Pubkey.fromBase58 (s : String) : Pubkey := ⟨base58Decode s⟩

/-- The system program id, 32 zero bytes. -/
def systemProgramId : Pubkey := ⟨List.replicate 32 0⟩

/-- Little-endian 4-byte encoding. -/
def u32le (n : Nat) : List Nat :=
  [n % 256, n / 256 % 256, n / 65536 % 256, n / 16777216 % 256]

/-- Little-endian 8-byte encoding. -/
def u64le (n : Nat) : List Nat :=
  [n % 256, n / 256 % 256, n / 65536 % 256, n / 16777216 % 256,
   n / 4294967296 % 256, n / 1099511627776 % 256,
   n / 281474976710656 % 256, n / 72057594037927936 % 256]

/-- An account reference inside an instruction, as in the SDK. -/
structure AccountMeta where
  pubkey : Pubkey
  isSigner : Bool
  isWritable : Bool
deriving DecidableEq

/-- A transaction instruction, as in the SDK. -/
structure TransactionInstruction where
  programId : Pubkey
  keys : List AccountMeta
  data : List Nat
deriving DecidableEq

namespace SystemProgram

/-- Modelled from the spec: the SDK builder SystemProgram.transfer, absent
from the repository (external SDK).  It produces an instruction on the
system program with the sender as writable signer, the recipient as
writable non-signer, and 12 bytes of data: the u32 transfer index 2
followed by the u64 lamport amount. -/
def transfer (fromPubkey toPubkey : Pubkey) (lamports : Nat) : TransactionInstruction :=
  { programId := systemProgramId
    keys := [⟨fromPubkey, true, true⟩, ⟨toPubkey, false, true⟩]
    data := u32le 2 ++ u64le lamports }

end SystemProgram

/-- On-chain state of a lookup table: the stored address list. -/
structure AltState where
  addresses : List Pubkey
deriving DecidableEq

/-- A fetched AddressLookupTableAccount: its address and its state. -/
structure AddressLookupTableAccount where
  key : Pubkey
  state : AltState
deriving DecidableEq

namespace AddressLookupTableProgram

/-- The address-lookup-table program id. -/
def programId : Pubkey :=
  Pubkey.fromBase58 "AddressLookupTab1e1111111111111111111111111"

/-- One absorption step of the program-derived-address model. -/
def absorbByte (st : List Nat) (i b : Nat) : List Nat :=
  st.set (i % 32) ((st.getD (i % 32) 0 * 31 + b + i) % 256)

/-- Modelled from the spec: the sha256-based program-derived-address hash of
the SDK findProgramAddress, absent from the repository (external SDK).  The
spec only requires that the derived table address be a deterministic
function of the seeds (authority and slot) and the program id; the real
hash is replaced by a simple deterministic 32-byte absorption. -/
def pdaHash (bytes : List Nat) : List Nat :=
  (bytes.foldl (fun (p : List Nat × Nat) b => (absorbByte p.1 p.2 b, p.2 + 1))
    (List.replicate 32 0, 0)).1

/-- Modelled from the spec: the SDK findProgramAddress, absent from the
repository (external SDK): a deterministic address derived from the seed
bytes and the program id. -/
def findProgramAddress (seeds : List (List Nat)) (pid : Pubkey) : Pubkey :=
  ⟨pdaHash (seeds.flatten ++ pid.bytes)⟩

/-- Modelled from the spec: the SDK builder
AddressLookupTableProgram.createLookupTable, absent from the repository
(external SDK).  It derives the deterministic table address from the
authority and the recent slot and returns, without any network effect, the
creation instruction together with that address. -/
def createLookupTable (authority payer : Pubkey) (recentSlot : Nat) :
    TransactionInstruction × Pubkey :=
  let lookupTableAddress := findProgramAddress [authority.bytes, u64le recentSlot] programId
  ({ programId := programId
     keys := [⟨lookupTableAddress, false, true⟩, ⟨authority, true, false⟩,
              ⟨payer, true, true⟩, ⟨systemProgramId, false, false⟩]
     data := u32le 0 ++ u64le recentSlot ++ [255] }, lookupTableAddress)

/-- Modelled from the spec: the SDK builder
AddressLookupTableProgram.extendLookupTable, absent from the repository
(external SDK).  It returns, without any network effect, the extend
instruction whose data carries the u32 extend index 2, the u64 count of
new addresses, and the full 32-byte addresses in order. -/
def extendLookupTable (payer authority lookupTable : Pubkey) (addresses : List Pubkey) :
    TransactionInstruction :=
  { programId := programId
    keys := [⟨lookupTable, false, true⟩, ⟨authority, true, false⟩,
             ⟨payer, true, true⟩, ⟨systemProgramId, false, false⟩]
    data := u32le 2 ++ u64le addresses.length ++ (addresses.map Pubkey.bytes).flatten }

end AddressLookupTableProgram

/-- Errors surfaced by the SDK model: failed assertions inside message
compilation, a null dereference in the script, or a failed confirmation. -/
inductive JsError where
  | assertionFailed (msg : String)
  | nullDereference (field : String)
  | confirmFailed
deriving DecidableEq

/-- Per-key flags accumulated during message compilation, as in the SDK
CompiledKeys. -/
structure KeyMeta where
  isSigner : Bool
  isWritable : Bool
  isInvoked : Bool
deriving DecidableEq

/-- The default flags for a key first seen. -/
def KeyMeta.default : KeyMeta := ⟨false, false, false⟩

/-- The SDK keyMetaMap: an insertion-ordered map from keys to flags,
embedded as an association list. -/
abbrev KeyMetaMap := List (Pubkey × KeyMeta)

/-- Modelled from the spec: the SDK getOrInsertDefault followed by a flag
update, absent from the repository (external SDK).  An existing entry is
updated in place; a new key is appended, preserving insertion order as a
javascript Map does. -/
def upsert : KeyMetaMap → Pubkey → (KeyMeta → KeyMeta) → KeyMetaMap
  | [], k, f => [(k, f KeyMeta.default)]
  | (k₁, v) :: rest, k, f =>
      if k₁ = k then (k₁, f v) :: rest else (k₁, v) :: upsert rest k f

/-- The per-account-meta flag update of CompiledKeys.compile: signer and
writable flags are or-ed in. -/
def applyAccountMeta (am : AccountMeta) (meta : KeyMeta) : KeyMeta :=
  { meta with isSigner := meta.isSigner || am.isSigner,
              isWritable := meta.isWritable || am.isWritable }

/-- Modelled from the spec: the SDK CompiledKeys.compile, absent from the
repository (external SDK).  The payer is inserted first as writable signer,
then each instruction marks its program id invoked and or-s in the flags of
each of its account references. -/
def compiledKeysCompile (payerKey : Pubkey) (instructions : List TransactionInstruction) :
    KeyMetaMap :=
  let m0 := upsert [] payerKey (fun meta => { meta with isSigner := true, isWritable := true })
  instructions.foldl
    (fun m ix =>
      let m1 := upsert m ix.programId (fun meta => { meta with isInvoked := true })
      ix.keys.foldl (fun m2 am => upsert m2 am.pubkey (applyAccountMeta am)) m1)
    m0

/-- The three-byte message header. -/
structure MessageHeader where
  numRequiredSignatures : Nat
  numReadonlySignedAccounts : Nat
  numReadonlyUnsignedAccounts : Nat
deriving DecidableEq

/-- Modelled from the spec: the SDK CompiledKeys.getMessageComponents,
absent from the repository (external SDK).  It asserts at most 256 static
keys, orders them as writable signers, readonly signers, writable
non-signers, readonly non-signers, asserts the payer is the first writable
signer, and computes the header counts. -/
def getMessageComponents (payer : Pubkey) (m : KeyMetaMap) :
    Except JsError (MessageHeader × List Pubkey) :=
  if m.length ≤ 256 then
    let writableSigners := m.filter (fun e => e.2.isSigner && e.2.isWritable)
    let readonlySigners := m.filter (fun e => e.2.isSigner && !e.2.isWritable)
    let writableNonSigners := m.filter (fun e => !e.2.isSigner && e.2.isWritable)
    let readonlyNonSigners := m.filter (fun e => !e.2.isSigner && !e.2.isWritable)
    let header : MessageHeader :=
      ⟨writableSigners.length + readonlySigners.length,
       readonlySigners.length, readonlyNonSigners.length⟩
    if (writableSigners.map Prod.fst).head? = some payer then
      .ok (header,
        (writableSigners ++ readonlySigners ++ writableNonSigners ++ readonlyNonSigners).map
          Prod.fst)
    else .error (.assertionFailed "expected first writable signer key to be the fee payer")
  else .error (.assertionFailed "max static account keys length exceeded")

/-- First index of a key in a key list (the SDK findIndex on arrays of
public keys). -/
def findIndex (k : Pubkey) : List Pubkey → Option Nat
  | [] => none
  | a :: rest => if a = k then some 0 else (findIndex k rest).map (· + 1)

/-- Modelled from the spec: the SDK drainKeysFoundInLookupTable, absent from
the repository (external SDK).  Map entries passing the flag filter that
appear in the lookup-table entries are removed from the map; their
1-byte table indexes (asserted below 256) and keys are collected in map
order. -/
def drainKeysFound (entries : List Pubkey) (keep : KeyMeta → Bool) :
    KeyMetaMap → Except JsError (List Nat × List Pubkey × KeyMetaMap)
  | [] => .ok ([], [], [])
  | (k, v) :: rest =>
      if keep v then
        match findIndex k entries with
        | some idx =>
            if idx < 256 then
              match drainKeysFound entries keep rest with
              | .ok (idxs, keys, m) => .ok (idx :: idxs, k :: keys, m)
              | .error e => .error e
            else .error (.assertionFailed "max lookup table index exceeded")
        | none =>
            match drainKeysFound entries keep rest with
            | .ok (idxs, keys, m) => .ok (idxs, keys, (k, v) :: m)
            | .error e => .error e
      else
        match drainKeysFound entries keep rest with
        | .ok (idxs, keys, m) => .ok (idxs, keys, (k, v) :: m)
        | .error e => .error e

/-- One address-table-lookup entry of a v0 message. -/
structure MessageAddressTableLookup where
  accountKey : Pubkey
  writableIndexes : List Nat
  readonlyIndexes : List Nat
deriving DecidableEq

/-- Modelled from the spec: the SDK CompiledKeys.extractTableLookup, absent
from the repository (external SDK).  Writable then readonly non-signer,
non-invoked keys found in the table are drained; nothing is returned when
no key was found. -/
def extractTableLookup (t : AddressLookupTableAccount) (m : KeyMetaMap) :
    Except JsError (Option (MessageAddressTableLookup × List Pubkey × List Pubkey) × KeyMetaMap) := do
  let (wIdx, wKeys, m1) ←
    drainKeysFound t.state.addresses (fun v => !v.isSigner && !v.isInvoked && v.isWritable) m
  let (rIdx, rKeys, m2) ←
    drainKeysFound t.state.addresses (fun v => !v.isSigner && !v.isInvoked && !v.isWritable) m1
  if wIdx.isEmpty && rIdx.isEmpty then pure (none, m2)
  else pure (some (⟨t.key, wIdx, rIdx⟩, wKeys, rKeys), m2)

/-- A compiled instruction: indexes into the combined account-key list plus
the raw data. -/
structure CompiledInstruction where
  programIdIndex : Nat
  accountKeyIndexes : List Nat
  data : List Nat
deriving DecidableEq

/-- Index lookup during instruction compilation; an unknown key is an
assertion failure in the SDK. -/
def findKeyIndex (keys : List Pubkey) (k : Pubkey) : Except JsError Nat :=
  match findIndex k keys with
  | some i => .ok i
  | none => .error (.assertionFailed "unknown instruction account key during compilation")

/-- Indexes of all account references of one instruction. -/
def compileAccountIndexes (keys : List Pubkey) :
    List AccountMeta → Except JsError (List Nat)
  | [] => pure []
  | am :: rest => do
      let i ← findKeyIndex keys am.pubkey
      let is ← compileAccountIndexes keys rest
      pure (i :: is)

/-- Compilation of each instruction against the combined account-key list. -/
def compileInstructionsAux (keys : List Pubkey) :
    List TransactionInstruction → Except JsError (List CompiledInstruction)
  | [] => pure []
  | ix :: rest => do
      let p ← findKeyIndex keys ix.programId
      let is ← compileAccountIndexes keys ix.keys
      let cis ← compileInstructionsAux keys rest
      pure (⟨p, is, ix.data⟩ :: cis)

/-- Modelled from the spec: the SDK MessageAccountKeys.compileInstructions,
absent from the repository (external SDK), including its assertion that the
combined account-key list fits the 1-byte index space. -/
def compileInstructions (keys : List Pubkey) (instrs : List TransactionInstruction) :
    Except JsError (List CompiledInstruction) :=
  if keys.length ≤ 256 then compileInstructionsAux keys instrs
  else .error (.assertionFailed "account index overflow encountered during compilation")

/-- A compiled v0 message. -/
structure MessageV0 where
  header : MessageHeader
  staticAccountKeys : List Pubkey
  recentBlockhash : List Nat
  compiledInstructions : List CompiledInstruction
  addressTableLookups : List MessageAddressTableLookup
deriving DecidableEq

/-- Extraction over the list of lookup tables, accumulating lookups and the
drained writable and readonly keys in order. -/
def extractAllTableLookups :
    List AddressLookupTableAccount → KeyMetaMap →
    Except JsError
      (List MessageAddressTableLookup × List Pubkey × List Pubkey × KeyMetaMap)
  | [], m => pure ([], [], [], m)
  | t :: ts, m => do
      let (res, m1) ← extractTableLookup t m
      let (ls, ws, rs, m2) ← extractAllTableLookups ts m1
      match res with
      | none => pure (ls, ws, rs, m2)
      | some (l, w, r) => pure (l :: ls, w ++ ws, r ++ rs, m2)

/-- Modelled from the spec: the SDK TransactionMessage.compileToV0Message,
absent from the repository (external SDK).  Keys are compiled from the
instructions and payer, table-resident keys are extracted into lookups,
the header and static keys are derived, and each instruction is compiled
against the combined account-key list. -/
def compileToV0Message (payerKey : Pubkey) (recentBlockhash : List Nat)
    (instructions : List TransactionInstruction)
    (addressLookupTableAccounts : List AddressLookupTableAccount) :
    Except JsError MessageV0 := do
  let m := compiledKeysCompile payerKey instructions
  let (lookups, lookupWritable, lookupReadonly, m1) ←
    extractAllTableLookups addressLookupTableAccounts m
  let (header, staticAccountKeys) ← getMessageComponents payerKey m1
  let accountKeys := staticAccountKeys ++ lookupWritable ++ lookupReadonly
  let cis ← compileInstructions accountKeys instructions
  pure ⟨header, staticAccountKeys, recentBlockhash, cis, lookups⟩

/-- The shortvec compact-u16 length encoding: 7 value bits per byte, high
bit marking continuation.  Three bytes of fuel cover every length below
2 to the 21st power; every length in this development is below 2 to the
16th. -/
def encodeCompactU16Aux : Nat → Nat → List Nat
  | 0, _ => []
  | fuel + 1, n => if n < 128 then [n] else (n % 128 + 128) :: encodeCompactU16Aux fuel (n / 128)

/-- The shortvec length encoding used throughout the wire format. -/
def encodeCompactU16 (n : Nat) : List Nat := encodeCompactU16Aux 3 n

/-- Wire bytes of one compiled instruction: program id index, compact
account count, 1-byte account indexes, compact data length, data. -/
def serializeCompiledInstruction (ci : CompiledInstruction) : List Nat :=
  ci.programIdIndex ::
    (encodeCompactU16 ci.accountKeyIndexes.length ++ ci.accountKeyIndexes
      ++ encodeCompactU16 ci.data.length ++ ci.data)

/-- Wire bytes of one address-table lookup: 32-byte table key, compact
writable count, 1-byte writable indexes, compact readonly count, 1-byte
readonly indexes. -/
def serializeAddressTableLookup (l : MessageAddressTableLookup) : List Nat :=
  l.accountKey.bytes ++ encodeCompactU16 l.writableIndexes.length ++ l.writableIndexes
    ++ encodeCompactU16 l.readonlyIndexes.length ++ l.readonlyIndexes

/-- Modelled from the spec: the SDK MessageV0.serialize, absent from the
repository (external SDK): the v0 prefix byte 128, the 3-byte header, the
compact-length-prefixed static keys of 32 bytes each, the 32-byte recent
blockhash, the compact-length-prefixed compiled instructions, and the
compact-length-prefixed address-table lookups. -/
def serializeMessage (msg : MessageV0) : List Nat :=
  128 :: msg.header.numRequiredSignatures :: msg.header.numReadonlySignedAccounts ::
  msg.header.numReadonlyUnsignedAccounts ::
  (encodeCompactU16 msg.staticAccountKeys.length
    ++ (msg.staticAccountKeys.map Pubkey.bytes).flatten
    ++ msg.recentBlockhash
    ++ encodeCompactU16 msg.compiledInstructions.length
    ++ (msg.compiledInstructions.map serializeCompiledInstruction).flatten
    ++ encodeCompactU16 msg.addressTableLookups.length
    ++ (msg.addressTableLookups.map serializeAddressTableLookup).flatten)

/-- The signer identity; only the public key is relevant to this
development, the secret key feeds the external ed25519 signer. -/
structure Keypair where
  publicKey : Pubkey
deriving DecidableEq

/-- A versioned transaction: one 64-byte signature slot per required signer
plus the message. -/
structure VersionedTransaction where
  signatures : List (List Nat)
  message : MessageV0
deriving DecidableEq

/-- The VersionedTransaction constructor: one zeroed 64-byte signature slot
per required signer. -/
def VersionedTransaction.new (msg : MessageV0) : VersionedTransaction :=
  ⟨List.replicate msg.header.numRequiredSignatures (List.replicate 64 0), msg⟩

/-- Modelled from the spec: ed25519 signing, absent from the repository
(external cryptography).  A signature is 64 bytes; only its length is ever
relevant, so the bytes are a fixed function of the signer and message. -/
def ed25519Sign (kp : Keypair) (msgBytes : List Nat) : List Nat :=
  List.replicate 64 ((kp.publicKey.bytes.sum + msgBytes.length) % 256)

/-- The sign method: the signature slot at the signer index among the
static keys is filled with the signature over the serialized message; an
unknown signer is an SDK assertion failure. -/
def signTransaction (payer : Keypair) (tx : VersionedTransaction) :
    Except JsError VersionedTransaction :=
  match findIndex payer.publicKey tx.message.staticAccountKeys with
  | some i =>
      .ok ⟨tx.signatures.set i (ed25519Sign payer (serializeMessage tx.message)), tx.message⟩
  | none => .error (.assertionFailed "cannot sign with non signer key")

/-- Modelled from the spec: VersionedTransaction.serialize, absent from the
repository (external SDK): compact signature count, the 64-byte signatures,
then the serialized message. -/
def serializeTx (tx : VersionedTransaction) : List Nat :=
  encodeCompactU16 tx.signatures.length ++ tx.signatures.flatten ++ serializeMessage tx.message

/-- The getLatestBlockhash response: the 32-byte blockhash value and the
last block height at which it is valid. -/
structure Blockhash where
  blockhash : List Nat
  lastValidBlockHeight : Nat
deriving DecidableEq

/-- The remote cluster as seen through the connection: responses to the RPC
calls the script makes, plus whether the confirmation wait succeeds within
the validity window. -/
structure Env where
  latestBlockhash : Blockhash
  slot : Nat
  lookupValue : Option AddressLookupTableAccount
  sendTxId : String
  confirmOk : Bool

/-- Observable events of one run: RPC calls with their responses, local
signing, and the printed outcomes. -/
inductive Event where
  | getLatestBlockhash (bh : Blockhash)
  | compileMessage (msg : MessageV0)
  | signTx (tx : VersionedTransaction)
  | sendTransaction (tx : VersionedTransaction) (txid : String)
  | confirmTransaction (txid : String) (blockhash : List Nat) (lastValidBlockHeight : Nat)
  | printSuccess (txid : String)
  | getSlot (slot : Nat)
  | getAddressLookupTable (addr : Pubkey) (value : Option AddressLookupTableAccount)
  | sleep (ms : Nat)
  | printTxSizes (sizeWithoutTable sizeWithTable : Nat)
deriving DecidableEq

/-- Whether an event can change on-chain state; only submitting a
transaction can. -/
def Event.isMutating : Event → Bool
  | .sendTransaction _ _ => true
  | _ => false

/-- Embedding of createAndSendV0Tx (src/index.js lines 12 to 48): fetch the
latest finalized blockhash, compile a v0 message from the payer, that
blockhash and the given instructions with no lookup table (the table
argument on line 25 is commented out), sign, send, await confirmTransaction
with the signature and both blockhash fields (lines 39 to 43; the
sendAndConfirmTransaction alternative on line 45 is the commented-out one),
then print the success line. -/
def createAndSendV0Tx (env : Env) (payer : Keypair)
    (arrayOfInstructions : List TransactionInstruction) :
    List Event × Except JsError String :=
  let latestBlockhash := env.latestBlockhash
  let tr0 := [Event.getLatestBlockhash latestBlockhash]
  match compileToV0Message payer.publicKey latestBlockhash.blockhash arrayOfInstructions [] with
  | .error e => (tr0, .error e)
  | .ok messageV0 =>
      let tr1 := tr0 ++ [Event.compileMessage messageV0]
      match signTransaction payer (VersionedTransaction.new messageV0) with
      | .error e => (tr1, .error e)
      | .ok transactionV0 =>
          let txid := env.sendTxId
          let tr2 := tr1 ++ [Event.signTx transactionV0, Event.sendTransaction transactionV0 txid,
            Event.confirmTransaction txid latestBlockhash.blockhash
              latestBlockhash.lastValidBlockHeight]
          if env.confirmOk then
            (tr2 ++ [Event.printSuccess txid], .ok txid)
          else
            (tr2, .error .confirmFailed)

/-- Embedding of createALTs (src/index.js lines 50 to 71): fetch the current
slot, construct the creation instruction and deterministic table address
with the payer as both authority and payer, submit the instruction, and
return the table address. -/
def createALTs (env : Env) (payer : Keypair) : List Event × Except JsError Pubkey :=
  let slot := env.slot
  let (lookupTableInst, lookupTableAddress) :=
    AddressLookupTableProgram.createLookupTable payer.publicKey payer.publicKey slot
  let (tr, res) := createAndSendV0Tx env payer [lookupTableInst]
  (Event.getSlot slot :: tr, res.map (fun _ => lookupTableAddress))

/-- Embedding of addAddress (src/index.js lines 73 to 88): build the extend
instruction for the given addresses with the payer as both authority and
payer, and submit it. -/
def addAddress (env : Env) (payer : Keypair) (lookupTableAddress : Pubkey)
    (addresses : List Pubkey) : List Event × Except JsError String :=
  let extendInstruction :=
    AddressLookupTableProgram.extendLookupTable payer.publicKey payer.publicKey
      lookupTableAddress addresses
  createAndSendV0Tx env payer [extendInstruction]

/-- Embedding of fetchALTs (src/index.js lines 90 to 113): fetch the account
and read its key and state.  When the RPC value is null the member access
lookupTableAccount.key on line 104 raises a TypeError, embedded as a
null-dereference error. -/
def fetchALTs (env : Env) (lookupTableAddress : Pubkey) :
    List Event × Except JsError AddressLookupTableAccount :=
  let tr := [Event.getAddressLookupTable lookupTableAddress env.lookupValue]
  match env.lookupValue with
  | none => (tr, .error (.nullDereference "key"))
  | some lookupTableAccount => (tr, .ok lookupTableAccount)

/-- The lamport amount of each comparison transfer: the javascript
expression 0.01 * 100000000 evaluates to exactly 1000000 in double
arithmetic. -/
def compareLamports : Nat := 1000000

/-- The transfer instructions compareTxSize builds: one transfer from the
payer to each address stored in the fetched table. -/
def transferInstructions (payer : Pubkey) (addrs : List Pubkey) :
    List TransactionInstruction :=
  addrs.map (fun address => SystemProgram.transfer payer address compareLamports)

/-- Embedding of compareTxSize (src/index.js lines 115 to 161): fetch the
lookup table and return early when it is null; build one transfer
instruction per stored address; fetch the latest blockhash; compile and
sign one transaction with the lookup table and one without, from the same
payer, blockhash and instruction list; print both serialized lengths.  The
returned pair is (size without table, size with table), as printed. -/
def compareTxSize (env : Env) (payer : Keypair) (lookupTableAddress : Pubkey) :
    List Event × Except JsError (Option (Nat × Nat)) :=
  let tr0 := [Event.getAddressLookupTable lookupTableAddress env.lookupValue]
  match env.lookupValue with
  | none => (tr0, .ok none)
  | some lookupTable =>
      let txInstructions := transferInstructions payer.publicKey lookupTable.state.addresses
      let latestBlockhash := env.latestBlockhash
      let tr1 := tr0 ++ [Event.getLatestBlockhash latestBlockhash]
      match compileToV0Message payer.publicKey latestBlockhash.blockhash txInstructions
          [lookupTable] with
      | .error e => (tr1, .error e)
      | .ok messageWithLookupTable =>
          match signTransaction payer (VersionedTransaction.new messageWithLookupTable) with
          | .error e => (tr1, .error e)
          | .ok transactionWithLookupTable =>
              let tr2 := tr1 ++ [Event.signTx transactionWithLookupTable]
              match compileToV0Message payer.publicKey latestBlockhash.blockhash
                  txInstructions [] with
              | .error e => (tr2, .error e)
              | .ok messageWithoutLookupTable =>
                  match signTransaction payer
                      (VersionedTransaction.new messageWithoutLookupTable) with
                  | .error e => (tr2, .error e)
                  | .ok transactionWithoutLookupTable =>
                      let sizeWithoutTable := (serializeTx transactionWithoutLookupTable).length
                      let sizeWithTable := (serializeTx transactionWithLookupTable).length
                      (tr2 ++ [Event.signTx transactionWithoutLookupTable,
                        Event.printTxSizes sizeWithoutTable sizeWithTable],
                       .ok (some (sizeWithoutTable, sizeWithTable)))

/-- The four addresses hardcoded in main (src/index.js lines 174 to 179). -/
def mainAddresses : List Pubkey :=
  [Pubkey.fromBase58 "8Z17Y623ZjNV8xaAdxgn5ZkqkVTEo8Yc6uaapvcrFB62",
   Pubkey.fromBase58 "846HwwmSGguDbipzs2xDYCsfyhi4j2LLiuQri11woums",
   Pubkey.fromBase58 "FueGNmz4M2wphGnDL5RuH2fCo6EQxxtheVn6syGE4Fh1",
   Pubkey.fromBase58 "8io2LqthLyQfFncj6QAaQ2q5d7z9WgRcVKrAz4DGNiee"]

/-- Embedding of main (src/index.js lines 163 to 196): create the lookup
table, sleep 60000 milliseconds, extend the table with the four hardcoded
addresses, then compare transaction sizes; each awaited step completes
before the next starts, and a rejected step ends the run. -/
def main (env : Env) (payer : Keypair) : List Event × Except JsError Unit :=
  let (tr1, r1) := createALTs env payer
  match r1 with
  | .error e => (tr1, .error e)
  | .ok lookupTableAddress =>
      let (tr3, r3) := addAddress env payer lookupTableAddress mainAddresses
      match r3 with
      | .error e => (tr1 ++ [Event.sleep 60000] ++ tr3, .error e)
      | .ok _ =>
          let (tr4, r4) := compareTxSize env payer lookupTableAddress
          (tr1 ++ [Event.sleep 60000] ++ tr3 ++ tr4, r4.map (fun _ => ()))

/-- Modelled from the spec: the on-chain address-lookup-table program extend
handler, absent from the repository (external on-chain program).  Per the
spec, extending past 256 total addresses is rejected as an overflow; an
accepted extension appends the new addresses, never truncating. -/
inductive ExtendOutcome where
  | overflow
  | extended (addresses : List Pubkey)
deriving DecidableEq

/-- Modelled from the spec: the on-chain extend semantics.  The table keeps
at most 256 addresses so every index fits the 1-byte index space. -/
def onChainExtend (table : List Pubkey) (newAddresses : List Pubkey) : ExtendOutcome :=
  if table.length + newAddresses.length > 256 then .overflow
  else .extended (table ++ newAddresses)

/-- Decoder for the address payload of an extend instruction: the 32-byte
addresses after the 12-byte header, read off in 32-byte chunks. -/
def chunk32 : Nat → List Nat → List (List Nat)
  | 0, _ => []
  | _ + 1, [] => []
  | fuel + 1, l => l.take 32 :: chunk32 fuel (l.drop 32)

/-- The address list carried by an extend instruction. -/
def extendInstructionAddresses (ix : TransactionInstruction) : List (List Nat) :=
  chunk32 ix.data.length (ix.data.drop 12)

/-!
Scenario analysis for compareTxSize: the exact key map, message shapes and
serialized lengths produced when the instruction list is one transfer per
table address.
-/

/-- Flags the payer ends up with: writable signer. -/
def payerMeta : KeyMeta := ⟨true, true, false⟩

/-- Flags the system program ends up with: invoked, readonly non-signer. -/
def progMeta : KeyMeta := ⟨false, false, true⟩

/-- Flags each transfer destination ends up with: writable non-signer. -/
def wMeta : KeyMeta := ⟨false, true, false⟩

/-- The key map restricted to the payer and the system program. -/
def baseMap (payer : Pubkey) : KeyMetaMap := [(payer, payerMeta), (systemProgramId, progMeta)]

/-- The key-map segment contributed by the transfer destinations. -/
def addrsMap (l : List Pubkey) : KeyMetaMap := l.map (fun a => (a, wMeta))

/-- Whether an event is the confirmation call. -/
def Event.isConfirm : Event → Bool
  | .confirmTransaction _ _ _ => true
  | _ => false

/-- Whether an event is the success print. -/
def Event.isSuccessLine : Event → Bool
  | .printSuccess _ => true
  | _ => false

/-- A sample well-formed public key, one per tag byte. -/
def samplePk (i : Nat) : Pubkey := ⟨List.replicate 31 7 ++ [i]⟩

/-- A sample signer. -/
def samplePayer : Keypair := ⟨samplePk 200⟩

/-- A sample blockhash response. -/
def sampleBh : Blockhash := ⟨List.replicate 32 9, 12345⟩

/-- A sample fetched lookup table over the given addresses. -/
def sampleTable (addrs : List Pubkey) : AddressLookupTableAccount :=
  ⟨samplePk 201, ⟨addrs⟩⟩

/-- A sample environment whose table fetch returns the given addresses. -/
def sampleEnv (addrs : List Pubkey) : Env :=
  ⟨sampleBh, 100, some (sampleTable addrs), "sig", true⟩

/-- A sample environment whose table fetch returns null. -/
def sampleEnvAbsent : Env := ⟨sampleBh, 100, none, "sig", true⟩

/-- A sample instruction list for the submission path. -/
def sampleInstrs : List TransactionInstruction :=
  [SystemProgram.transfer (samplePk 200) (samplePk 1) 5]

theorem upsert_cons_eq (k : Pubkey) (v : KeyMeta) (m : KeyMetaMap) (f : KeyMeta → KeyMeta) :
    upsert ((k, v) :: m) k f = (k, f v) :: m := by
  simp [upsert]

theorem upsert_cons_ne (k₁ k : Pubkey) (v : KeyMeta) (m : KeyMetaMap) (f : KeyMeta → KeyMeta)
    (h : k₁ ≠ k) : upsert ((k₁, v) :: m) k f = (k₁, v) :: upsert m k f := by
  simp [upsert, h]

theorem upsert_not_mem (m : KeyMetaMap) (k : Pubkey) (f : KeyMeta → KeyMeta)
    (h : ∀ e ∈ m, e.1 ≠ k) : upsert m k f = m ++ [(k, f KeyMeta.default)] := by
  induction m with
  | nil => simp [upsert]
  | cons e rest ih =>
      obtain ⟨k₁, v⟩ := e
      have h₁ : k₁ ≠ k := h (k₁, v) (by simp)
      rw [upsert_cons_ne k₁ k v rest f h₁, ih (fun e he => h e (by simp [he]))]
      simp

/-- Marking the system program invoked in the base map changes nothing. -/
theorem upsert_base_sys (payer : Pubkey) (tail : KeyMetaMap) (h : payer ≠ systemProgramId) :
    upsert ((payer, payerMeta) :: (systemProgramId, progMeta) :: tail) systemProgramId
      (fun meta => { meta with isInvoked := true })
    = (payer, payerMeta) :: (systemProgramId, progMeta) :: tail := by
  rw [upsert_cons_ne _ _ _ _ _ h, upsert_cons_eq]
  rfl

/-- Or-ing the transfer source flags into the payer entry changes nothing. -/
theorem upsert_base_payer (payer : Pubkey) (tail : KeyMetaMap) :
    upsert ((payer, payerMeta) :: tail) payer (applyAccountMeta ⟨payer, true, true⟩)
    = (payer, payerMeta) :: tail := by
  rw [upsert_cons_eq]
  rfl

/-- A fresh transfer destination is appended as writable non-signer. -/
theorem upsert_fresh (m : KeyMetaMap) (a : Pubkey) (h : ∀ e ∈ m, e.1 ≠ a) :
    upsert m a (applyAccountMeta ⟨a, false, true⟩) = m ++ [(a, wMeta)] := by
  rw [upsert_not_mem m a _ h]
  rfl

/-- Folding the key compilation over a tail of transfers extends the
destination segment of the map in order. -/
theorem foldl_transfers (payer : Pubkey) (rest : List Pubkey) :
    ∀ done : List Pubkey,
      payer ≠ systemProgramId →
      (∀ a ∈ rest, a ≠ payer) → (∀ a ∈ rest, a ≠ systemProgramId) →
      (∀ a ∈ rest, a ∉ done) → rest.Nodup →
      List.foldl
        (fun m ix =>
          List.foldl (fun m2 am => upsert m2 am.pubkey (applyAccountMeta am))
            (upsert m ix.programId (fun meta => { meta with isInvoked := true }))
            ix.keys)
        (baseMap payer ++ addrsMap done)
        (transferInstructions payer rest)
      = baseMap payer ++ addrsMap (done ++ rest) := by
  induction rest with
  | nil =>
      intro done _ _ _ _ _
      simp [transferInstructions]
  | cons a rest ih =>
      intro done hps hp hs hd hnd
      have hstep :
          List.foldl (fun m2 am => upsert m2 am.pubkey (applyAccountMeta am))
            (upsert (baseMap payer ++ addrsMap done)
              (SystemProgram.transfer payer a compareLamports).programId
              (fun meta => { meta with isInvoked := true }))
            (SystemProgram.transfer payer a compareLamports).keys
          = baseMap payer ++ addrsMap (done ++ [a]) := by
        have h1 : upsert (baseMap payer ++ addrsMap done) systemProgramId
            (fun meta => { meta with isInvoked := true })
            = baseMap payer ++ addrsMap done := by
          have := upsert_base_sys payer (addrsMap done) hps
          simpa [baseMap] using this
        have h2 : upsert (baseMap payer ++ addrsMap done) payer
            (applyAccountMeta ⟨payer, true, true⟩)
            = baseMap payer ++ addrsMap done := by
          have := upsert_base_payer payer ((systemProgramId, progMeta) :: addrsMap done)
          simpa [baseMap] using this
        have h3 : upsert (baseMap payer ++ addrsMap done) a
            (applyAccountMeta ⟨a, false, true⟩)
            = (baseMap payer ++ addrsMap done) ++ [(a, wMeta)] := by
          apply upsert_fresh
          intro e he
          rcases List.mem_append.mp he with hb | hd2
          · simp only [baseMap, List.mem_cons, List.mem_singleton] at hb
            rcases hb with h | h | h
            · rw [h]
              exact fun hc => (hp a (by simp)) hc.symm
            · rw [h]
              exact fun hc => (hs a (by simp)) hc.symm
            · exact absurd h (by simp)
          · simp only [addrsMap, List.mem_map] at hd2
            obtain ⟨b, hb, hbe⟩ := hd2
            intro hc
            have hba : b = a := by
              have h4 : (b, wMeta).1 = a := by rw [hbe]; exact hc
              simpa using h4
            exact (hd a (by simp)) (hba ▸ hb)
        simp only [SystemProgram.transfer, List.foldl_cons, List.foldl_nil]
        rw [h1, h2, h3]
        simp [addrsMap]
      calc
        List.foldl _ (baseMap payer ++ addrsMap done) (transferInstructions payer (a :: rest))
            = List.foldl
                (fun m ix =>
                  List.foldl (fun m2 am => upsert m2 am.pubkey (applyAccountMeta am))
                    (upsert m ix.programId (fun meta => { meta with isInvoked := true }))
                    ix.keys)
                (baseMap payer ++ addrsMap (done ++ [a]))
                (transferInstructions payer rest) := by
              simp only [transferInstructions, List.map_cons, List.foldl_cons]
              rw [hstep]
        _ = baseMap payer ++ addrsMap ((done ++ [a]) ++ rest) := by
              apply ih (done ++ [a]) hps
              · exact fun b hb => hp b (by simp [hb])
              · exact fun b hb => hs b (by simp [hb])
              · intro b hb
                simp only [List.mem_append, List.mem_singleton]
                rintro (hbd | hba)
                · exact (hd b (by simp [hb])) hbd
                · rw [hba] at hb
                  exact (List.nodup_cons.mp hnd).1 hb
              · exact (List.nodup_cons.mp hnd).2
        _ = baseMap payer ++ addrsMap (done ++ a :: rest) := by
              simp

/-- The key map compiled from one transfer per address: payer as writable
signer, the system program invoked, and each address as writable
non-signer, in order. -/
theorem compile_transfers (payer : Pubkey) (addrs : List Pubkey)
    (hps : payer ≠ systemProgramId) (hp : ∀ a ∈ addrs, a ≠ payer)
    (hs : ∀ a ∈ addrs, a ≠ systemProgramId) (hnd : addrs.Nodup) (hne : addrs ≠ []) :
    compiledKeysCompile payer (transferInstructions payer addrs)
    = baseMap payer ++ addrsMap addrs := by
  obtain ⟨a, rest, rfl⟩ := List.exists_cons_of_ne_nil hne
  have hm0 : upsert [] payer (fun meta => { meta with isSigner := true, isWritable := true })
      = [(payer, payerMeta)] := rfl
  have hstep1 :
      List.foldl (fun m2 am => upsert m2 am.pubkey (applyAccountMeta am))
        (upsert [(payer, payerMeta)]
          (SystemProgram.transfer payer a compareLamports).programId
          (fun meta => { meta with isInvoked := true }))
        (SystemProgram.transfer payer a compareLamports).keys
      = baseMap payer ++ addrsMap [a] := by
    have h1 : upsert [(payer, payerMeta)] systemProgramId
        (fun meta => { meta with isInvoked := true })
        = [(payer, payerMeta), (systemProgramId, progMeta)] := by
      rw [upsert_not_mem]
      · rfl
      · intro e he
        simp only [List.mem_singleton] at he
        rw [he]
        exact hps
    have h2 : upsert [(payer, payerMeta), (systemProgramId, progMeta)] payer
        (applyAccountMeta ⟨payer, true, true⟩)
        = [(payer, payerMeta), (systemProgramId, progMeta)] :=
      upsert_base_payer payer [(systemProgramId, progMeta)]
    have h3 : upsert [(payer, payerMeta), (systemProgramId, progMeta)] a
        (applyAccountMeta ⟨a, false, true⟩)
        = [(payer, payerMeta), (systemProgramId, progMeta)] ++ [(a, wMeta)] := by
      apply upsert_fresh
      intro e he
      simp only [List.mem_cons, List.mem_singleton] at he
      rcases he with h | h | h
      · rw [h]
        exact fun hc => (hp a (by simp)) hc.symm
      · rw [h]
        exact fun hc => (hs a (by simp)) hc.symm
      · exact absurd h (by simp)
    simp only [SystemProgram.transfer, List.foldl_cons, List.foldl_nil, h1, h2, h3]
    rfl
  have hrest := foldl_transfers payer rest [a] hps
    (fun b hb => hp b (by simp [hb]))
    (fun b hb => hs b (by simp [hb]))
    (by
      intro b hb
      simp only [List.mem_singleton]
      intro hba
      rw [hba] at hb
      exact (List.nodup_cons.mp hnd).1 hb)
    (List.nodup_cons.mp hnd).2
  simp only [compiledKeysCompile, transferInstructions, List.map_cons, List.foldl_cons, hm0]
  simp only [transferInstructions] at hrest
  rw [hstep1]
  simpa using hrest

/-- Header and ordered static keys of the message compiled without a
lookup table: payer, then the destinations, then the system program. -/
theorem gmc_scenario (payer : Pubkey) (l : List Pubkey) (hlen : l.length ≤ 254) :
    getMessageComponents payer (baseMap payer ++ addrsMap l)
    = .ok (⟨1, 0, 1⟩, payer :: (l ++ [systemProgramId])) := by
  have hlen2 : (baseMap payer ++ addrsMap l).length ≤ 256 := by
    simp only [List.length_append, baseMap, addrsMap, List.length_map, List.length_cons,
      List.length_nil]
    omega
  have hws : (baseMap payer ++ addrsMap l).filter (fun e => e.2.isSigner && e.2.isWritable)
      = [(payer, payerMeta)] := by
    rw [List.filter_append]
    have h2 : (addrsMap l).filter (fun e => e.2.isSigner && e.2.isWritable) = [] := by
      rw [List.filter_eq_nil_iff]
      intro e he
      simp only [addrsMap, List.mem_map] at he
      obtain ⟨a, _, rfl⟩ := he
      simp [wMeta]
    rw [h2]
    simp [baseMap, payerMeta, progMeta]
  have hrs : (baseMap payer ++ addrsMap l).filter (fun e => e.2.isSigner && !e.2.isWritable)
      = [] := by
    rw [List.filter_eq_nil_iff]
    intro e he
    rcases List.mem_append.mp he with hb | hd
    · simp only [baseMap, List.mem_cons, List.not_mem_nil, or_false] at hb
      rcases hb with rfl | rfl
      · simp [payerMeta]
      · simp [progMeta]
    · simp only [addrsMap, List.mem_map] at hd
      obtain ⟨a, _, rfl⟩ := hd
      simp [wMeta]
  have hwn : (baseMap payer ++ addrsMap l).filter (fun e => !e.2.isSigner && e.2.isWritable)
      = addrsMap l := by
    rw [List.filter_append]
    have h1 : (baseMap payer).filter (fun e => !e.2.isSigner && e.2.isWritable) = [] := by
      simp [baseMap, payerMeta, progMeta]
    have h2 : (addrsMap l).filter (fun e => !e.2.isSigner && e.2.isWritable) = addrsMap l := by
      rw [List.filter_eq_self]
      intro e he
      simp only [addrsMap, List.mem_map] at he
      obtain ⟨a, _, rfl⟩ := he
      simp [wMeta]
    rw [h1, h2, List.nil_append]
  have hrn : (baseMap payer ++ addrsMap l).filter (fun e => !e.2.isSigner && !e.2.isWritable)
      = [(systemProgramId, progMeta)] := by
    rw [List.filter_append]
    have h2 : (addrsMap l).filter (fun e => !e.2.isSigner && !e.2.isWritable) = [] := by
      rw [List.filter_eq_nil_iff]
      intro e he
      simp only [addrsMap, List.mem_map] at he
      obtain ⟨a, _, rfl⟩ := he
      simp [wMeta]
    rw [h2]
    simp [baseMap, payerMeta, progMeta]
  simp only [getMessageComponents, hws, hrs, hwn, hrn, if_pos hlen2]
  simp only [addrsMap, List.map_map]
  simp [Function.comp_def]

/-- Index of an element after a prefix it does not occur in. -/
theorem findIndex_append_cons (pre : List Pubkey) (r : Pubkey) (post : List Pubkey)
    (h : r ∉ pre) : findIndex r (pre ++ r :: post) = some pre.length := by
  induction pre with
  | nil => simp [findIndex]
  | cons b pre ih =>
      have hbr : b ≠ r := fun hc => h (by simp [hc])
      have ih2 := ih (fun hc => h (by simp [hc]))
      simp [findIndex, hbr, ih2]

/-- Draining the destination segment against the full table removes every
entry, producing the consecutive table indexes. -/
theorem drain_addrsMap (full : List Pubkey) (rest : List Pubkey) :
    ∀ pre : List Pubkey, full = pre ++ rest → full.Nodup → full.length ≤ 256 →
    drainKeysFound full (fun v => !v.isSigner && !v.isInvoked && v.isWritable)
      (addrsMap rest)
    = .ok (List.range' pre.length rest.length, rest, []) := by
  induction rest with
  | nil =>
      intro pre _ _ _
      simp [addrsMap, drainKeysFound, List.range']
  | cons r rest ih =>
      intro pre heq hnd hlen
      have hr_not_pre : r ∉ pre := by
        rw [heq] at hnd
        have := List.Nodup.not_mem (by
          have h2 := List.Nodup.sublist (List.sublist_append_right pre (r :: rest)) hnd
          exact h2)
        intro hc
        have hd2 := (List.nodup_append.mp hnd).2.2
        exact hd2 hc (by simp)
      have hfi : findIndex r full = some pre.length := by
        rw [heq]
        exact findIndex_append_cons pre r rest hr_not_pre
      have hlt : pre.length < 256 := by
        have hl : full.length = pre.length + rest.length + 1 := by
          rw [heq]
          simp [Nat.add_comm, Nat.add_assoc, Nat.add_left_comm]
        omega
      have hrec := ih (pre ++ [r]) (by rw [heq]; simp) hnd hlen
      simp only [List.length_append, List.length_cons, List.length_nil] at hrec
      simp only [addrsMap, List.map_cons, wMeta] at hrec ⊢
      simp [drainKeysFound, hfi, hlt, hrec, List.range'_succ]

/-- Writable drain over the whole compiled map: the base entries stay, the
destinations leave with indexes 0 to k-1. -/
theorem drain_w_scenario (payer : Pubkey) (addrs : List Pubkey)
    (hnd : addrs.Nodup) (hlen : addrs.length ≤ 256) :
    drainKeysFound addrs (fun v => !v.isSigner && !v.isInvoked && v.isWritable)
      (baseMap payer ++ addrsMap addrs)
    = .ok (List.range' 0 addrs.length, addrs, baseMap payer) := by
  have h := drain_addrsMap addrs addrs [] rfl hnd hlen
  simp only [List.length_nil] at h
  simp [baseMap, drainKeysFound, payerMeta, progMeta, h]

/-- Readonly drain finds nothing: the base entries are a signer and an
invoked program. -/
theorem drain_r_scenario (payer : Pubkey) (entries : List Pubkey) :
    drainKeysFound entries (fun v => !v.isSigner && !v.isInvoked && !v.isWritable)
      (baseMap payer)
    = .ok ([], [], baseMap payer) := by
  simp [baseMap, drainKeysFound, payerMeta, progMeta]

/-- Reduction of a monadic bind on a successful Except value. -/
theorem except_bind_ok {ε α β : Type} (a : α) (f : α → Except ε β) :
    (Except.ok (ε := ε) a >>= f) = f a := rfl

/-- Extraction of the lookup table in the comparison scenario: all
destinations move into the writable indexes, the static map shrinks to the
base entries. -/
theorem extract_scenario (payer : Pubkey) (key : Pubkey) (addrs : List Pubkey)
    (hnd : addrs.Nodup) (hlen : addrs.length ≤ 256) (hne : addrs ≠ []) :
    extractTableLookup ⟨key, ⟨addrs⟩⟩ (baseMap payer ++ addrsMap addrs)
    = .ok (some (⟨key, List.range' 0 addrs.length, []⟩, addrs, []), baseMap payer) := by
  have hw := drain_w_scenario payer addrs hnd hlen
  have hr := drain_r_scenario payer addrs
  have hlen0 : addrs.length ≠ 0 := fun hc => hne (List.length_eq_zero.mp hc)
  simp [extractTableLookup, hw, hr, except_bind_ok, hlen0]

/-- A key present in the list has an index. -/
theorem findIndex_of_mem (k : Pubkey) (l : List Pubkey) (h : k ∈ l) :
    ∃ i, findIndex k l = some i := by
  induction l with
  | nil => exact absurd h (by simp)
  | cons b l ih =>
      by_cases hb : b = k
      · exact ⟨0, by simp [findIndex, hb]⟩
      · have hm : k ∈ l := by
          rcases List.mem_cons.mp h with hc | hc
          · exact absurd hc.symm hb
          · exact hc
        obtain ⟨i, hi⟩ := ih hm
        exact ⟨i + 1, by simp [findIndex, hb, hi]⟩

/-- A key present in the list resolves during compilation. -/
theorem findKeyIndex_of_mem (keys : List Pubkey) (k : Pubkey) (h : k ∈ keys) :
    ∃ i, findKeyIndex keys k = .ok i := by
  obtain ⟨i, hi⟩ := findIndex_of_mem k keys h
  exact ⟨i, by simp [findKeyIndex, hi]⟩

/-- Compiling the transfer list succeeds when every referenced key is in the
account list, and each compiled transfer has two account indexes and
12 bytes of data. -/
theorem compileInstructionsAux_transfers (keys : List Pubkey) (payer : Pubkey)
    (addrs : List Pubkey) (hp : payer ∈ keys) (hs : systemProgramId ∈ keys)
    (ha : ∀ a ∈ addrs, a ∈ keys) :
    ∃ cis, compileInstructionsAux keys (transferInstructions payer addrs) = .ok cis ∧
      cis.length = addrs.length ∧
      ∀ ci ∈ cis, ci.accountKeyIndexes.length = 2 ∧ ci.data.length = 12 := by
  induction addrs with
  | nil =>
      exact ⟨[], by simp [transferInstructions, compileInstructionsAux, pure, Except.pure],
        rfl, by simp⟩
  | cons a rest ih =>
      obtain ⟨cis, hcis, hlen, hprop⟩ := ih (fun b hb => ha b (by simp [hb]))
      obtain ⟨ip, hip⟩ := findKeyIndex_of_mem keys systemProgramId hs
      obtain ⟨i1, hi1⟩ := findKeyIndex_of_mem keys payer hp
      obtain ⟨i2, hi2⟩ := findKeyIndex_of_mem keys a (ha a (by simp))
      refine ⟨⟨ip, [i1, i2], u32le 2 ++ u64le compareLamports⟩ :: cis, ?_, by simp [hlen], ?_⟩
      · simp only [transferInstructions, List.map_cons] at *
        simp only [SystemProgram.transfer] at hcis ⊢
        simp [compileInstructionsAux, compileAccountIndexes,
          hip, hi1, hi2, hcis, except_bind_ok, Functor.map, Except.map, pure, Except.pure]
      · intro ci hci
        rcases List.mem_cons.mp hci with rfl | hm
        · constructor
          · rfl
          · simp [u32le, u64le]
        · exact hprop ci hm

/-- Serialized length of a compiled transfer: 17 bytes. -/
theorem length_serializeCI (ci : CompiledInstruction)
    (h2 : ci.accountKeyIndexes.length = 2) (h12 : ci.data.length = 12) :
    (serializeCompiledInstruction ci).length = 17 := by
  simp [serializeCompiledInstruction, h2, h12, encodeCompactU16, encodeCompactU16Aux]

/-- Total length of the concatenated 32-byte static keys. -/
theorem length_flatten_bytes (l : List Pubkey) (h : ∀ p ∈ l, p.wf) :
    ((l.map Pubkey.bytes).flatten).length = 32 * l.length := by
  induction l with
  | nil => simp
  | cons p rest ih =>
      have hp : p.bytes.length = 32 := h p (by simp)
      have ihr := ih (fun q hq => h q (by simp [hq]))
      simp [hp, ihr]
      ring

/-- Total length of the concatenated serialized instructions, at 17 bytes
each. -/
theorem length_flatten_ci (cis : List CompiledInstruction)
    (h : ∀ ci ∈ cis, (serializeCompiledInstruction ci).length = 17) :
    ((cis.map serializeCompiledInstruction).flatten).length = 17 * cis.length := by
  induction cis with
  | nil => simp
  | cons ci rest ih =>
      have hc : (serializeCompiledInstruction ci).length = 17 := h ci (by simp)
      have ihr := ih (fun c hcm => h c (by simp [hcm]))
      simp [hc, ihr]
      ring

/-- Byte length of a shortvec-encoded length below 2 to the 14th: one byte
below 128, two bytes from 128 on. -/
theorem length_encodeCompactU16 (n : Nat) (h : n < 16384) :
    (encodeCompactU16 n).length = if n < 128 then 1 else 2 := by
  by_cases h1 : n < 128
  · simp [encodeCompactU16, encodeCompactU16Aux, h1]
  · have h2 : n / 128 < 128 := by
      have : n < 128 * 128 := h
      exact Nat.div_lt_of_lt_mul (by omega)
    simp [encodeCompactU16, encodeCompactU16Aux, h1, h2]

/-- The system program id is well formed. -/
theorem systemProgramId_wf : systemProgramId.wf := by
  simp [systemProgramId, Pubkey.wf]

/-- The v0 message compiled from the transfers without a lookup table:
static keys are the payer, all destinations, and the system program. -/
theorem compile_msg_without (payer : Pubkey) (bh : List Nat) (addrs : List Pubkey)
    (hps : payer ≠ systemProgramId) (hp : ∀ a ∈ addrs, a ≠ payer)
    (hs : ∀ a ∈ addrs, a ≠ systemProgramId) (hnd : addrs.Nodup) (hne : addrs ≠ [])
    (hlen : addrs.length ≤ 254) :
    ∃ cis, compileToV0Message payer bh (transferInstructions payer addrs) []
        = .ok ⟨⟨1, 0, 1⟩, payer :: (addrs ++ [systemProgramId]), bh, cis, []⟩ ∧
      cis.length = addrs.length ∧
      ∀ ci ∈ cis, ci.accountKeyIndexes.length = 2 ∧ ci.data.length = 12 := by
  have hcomp := compile_transfers payer addrs hps hp hs hnd hne
  have hgmc := gmc_scenario payer addrs hlen
  have hkeys : (payer :: (addrs ++ [systemProgramId])).length ≤ 256 := by
    simp
    omega
  obtain ⟨cis, hcis, hclen, hprop⟩ := compileInstructionsAux_transfers
    (payer :: (addrs ++ [systemProgramId])) payer addrs (by simp) (by simp)
    (fun a ha2 => by simp [ha2])
  have hci : compileInstructions (payer :: (addrs ++ [systemProgramId]))
      (transferInstructions payer addrs) = .ok cis := by
    unfold compileInstructions
    rw [if_pos hkeys]
    exact hcis
  refine ⟨cis, ?_, hclen, hprop⟩
  simp [compileToV0Message, hcomp, extractAllTableLookups, except_bind_ok, hgmc,
    hci, pure, Except.pure]

/-- The v0 message compiled from the transfers with the lookup table: only
the payer and the system program stay static, the destinations become
writable lookup indexes 0 to k-1. -/
theorem compile_msg_with (payer : Pubkey) (bh : List Nat) (key : Pubkey)
    (addrs : List Pubkey)
    (hps : payer ≠ systemProgramId) (hp : ∀ a ∈ addrs, a ≠ payer)
    (hs : ∀ a ∈ addrs, a ≠ systemProgramId) (hnd : addrs.Nodup) (hne : addrs ≠ [])
    (hlen : addrs.length ≤ 254) :
    ∃ cis,
      compileToV0Message payer bh (transferInstructions payer addrs) [⟨key, ⟨addrs⟩⟩]
        = .ok ⟨⟨1, 0, 1⟩, [payer, systemProgramId], bh, cis,
            [⟨key, List.range' 0 addrs.length, []⟩]⟩ ∧
      cis.length = addrs.length ∧
      ∀ ci ∈ cis, ci.accountKeyIndexes.length = 2 ∧ ci.data.length = 12 := by
  have hcomp := compile_transfers payer addrs hps hp hs hnd hne
  have hext := extract_scenario payer key addrs hnd (by omega) hne
  have hgmc0 : getMessageComponents payer (baseMap payer)
      = .ok (⟨1, 0, 1⟩, [payer, systemProgramId]) := by
    have h := gmc_scenario payer [] (by simp)
    simpa [addrsMap] using h
  have hkeys : ([payer, systemProgramId] ++ addrs ++ ([] : List Pubkey)).length ≤ 256 := by
    simp
    omega
  obtain ⟨cis, hcis, hclen, hprop⟩ := compileInstructionsAux_transfers
    ([payer, systemProgramId] ++ addrs ++ []) payer addrs (by simp) (by simp)
    (fun a ha2 => by simp [ha2])
  have hci : compileInstructions ([payer, systemProgramId] ++ addrs ++ [])
      (transferInstructions payer addrs) = .ok cis := by
    unfold compileInstructions
    rw [if_pos hkeys]
    exact hcis
  have hci2 : compileInstructions (payer :: systemProgramId :: addrs)
      (transferInstructions payer addrs) = .ok cis := by
    simpa using hci
  refine ⟨cis, ?_, hclen, hprop⟩
  simp [compileToV0Message, hcomp, extractAllTableLookups, except_bind_ok, hext,
    hgmc0, hci2, pure, Except.pure]

/-- Signing a freshly built single-signer transaction whose first static key
is the payer fills the single signature slot. -/
theorem sign_new_single (payer : Keypair) (msg : MessageV0) (rest : List Pubkey)
    (hhead : msg.staticAccountKeys = payer.publicKey :: rest)
    (hreq : msg.header.numRequiredSignatures = 1) :
    signTransaction payer (VersionedTransaction.new msg)
    = .ok ⟨[ed25519Sign payer (serializeMessage msg)], msg⟩ := by
  simp [signTransaction, VersionedTransaction.new, hhead, hreq, findIndex]

/-- A modelled signature is 64 bytes. -/
theorem length_ed25519Sign (kp : Keypair) (b : List Nat) : (ed25519Sign kp b).length = 64 := by
  simp [ed25519Sign]

/-- Serialized length of a single-signature transaction: 65 bytes of
signature framing plus the message. -/
theorem length_serializeTx_single (sig : List Nat) (hsig : sig.length = 64)
    (msg : MessageV0) :
    (serializeTx ⟨[sig], msg⟩).length = 65 + (serializeMessage msg).length := by
  simp [serializeTx, encodeCompactU16, encodeCompactU16Aux, hsig]
  omega

/-- Serialized length of a v0 message, in terms of its component counts. -/
theorem length_serializeMessage (msg : MessageV0)
    (hkeys : ∀ p ∈ msg.staticAccountKeys, p.wf)
    (hbh : msg.recentBlockhash.length = 32)
    (hcis : ∀ ci ∈ msg.compiledInstructions, (serializeCompiledInstruction ci).length = 17) :
    (serializeMessage msg).length
      = 4 + (encodeCompactU16 msg.staticAccountKeys.length).length
        + 32 * msg.staticAccountKeys.length + 32
        + (encodeCompactU16 msg.compiledInstructions.length).length
        + 17 * msg.compiledInstructions.length
        + (encodeCompactU16 msg.addressTableLookups.length).length
        + ((msg.addressTableLookups.map serializeAddressTableLookup).flatten).length := by
  simp [serializeMessage, List.length_append, length_flatten_bytes _ hkeys,
    length_flatten_ci _ hcis, hbh]
  ring

/-- Serialized length of the single lookup entry of the comparison
scenario. -/
theorem length_serializeLookup_scenario (key : Pubkey) (hk : key.wf) (k : Nat) :
    (serializeAddressTableLookup ⟨key, List.range' 0 k, []⟩).length
    = 33 + (encodeCompactU16 k).length + k := by
  have hkb : key.bytes.length = 32 := hk
  simp [serializeAddressTableLookup, hkb, encodeCompactU16, encodeCompactU16Aux]
  omega

/-- The two sizes compareTxSize reports on a table of k well-formed,
distinct addresses: 166 + 49k plus two length-encoding bytes without the
table, and 200 + 18k plus two length-encoding bytes with it. -/
theorem compareTxSize_scenario (env : Env) (payer : Keypair) (tableAddr : Pubkey)
    (addrs : List Pubkey) (key : Pubkey)
    (henv : env.lookupValue = some ⟨key, ⟨addrs⟩⟩)
    (hps : payer.publicKey ≠ systemProgramId)
    (hp : ∀ a ∈ addrs, a ≠ payer.publicKey) (hs : ∀ a ∈ addrs, a ≠ systemProgramId)
    (hnd : addrs.Nodup) (hne : addrs ≠ []) (hlen : addrs.length ≤ 254)
    (hwfp : payer.publicKey.wf) (hwfa : ∀ a ∈ addrs, a.wf) (hwfk : key.wf)
    (hwfb : env.latestBlockhash.blockhash.length = 32) :
    (compareTxSize env payer tableAddr).2
    = .ok (some
        (166 + 49 * addrs.length
          + (encodeCompactU16 (addrs.length + 2)).length
          + (encodeCompactU16 addrs.length).length,
         200 + 18 * addrs.length + 2 * (encodeCompactU16 addrs.length).length)) := by
  obtain ⟨cisW, hmsgW, hlenW, hpropW⟩ := compile_msg_with payer.publicKey
    env.latestBlockhash.blockhash key addrs hps hp hs hnd hne hlen
  obtain ⟨cisO, hmsgO, hlenO, hpropO⟩ := compile_msg_without payer.publicKey
    env.latestBlockhash.blockhash addrs hps hp hs hnd hne hlen
  have hsignW := sign_new_single payer
    ⟨⟨1, 0, 1⟩, [payer.publicKey, systemProgramId], env.latestBlockhash.blockhash, cisW,
      [⟨key, List.range' 0 addrs.length, []⟩]⟩ [systemProgramId] rfl rfl
  have hsignO := sign_new_single payer
    ⟨⟨1, 0, 1⟩, payer.publicKey :: (addrs ++ [systemProgramId]),
      env.latestBlockhash.blockhash, cisO, []⟩ (addrs ++ [systemProgramId]) rfl rfl
  have e2 : (encodeCompactU16 2).length = 1 := rfl
  have e1 : (encodeCompactU16 1).length = 1 := rfl
  have e0 : (encodeCompactU16 0).length = 1 := rfl
  have hmlW : (serializeMessage
      ⟨⟨1, 0, 1⟩, [payer.publicKey, systemProgramId], env.latestBlockhash.blockhash, cisW,
        [⟨key, List.range' 0 addrs.length, []⟩]⟩).length
      = 135 + 18 * addrs.length + 2 * (encodeCompactU16 addrs.length).length := by
    rw [length_serializeMessage]
    · dsimp only
      have h1 : ([payer.publicKey, systemProgramId] : List Pubkey).length = 2 := rfl
      have h2 : ([(⟨key, List.range' 0 addrs.length, []⟩ : MessageAddressTableLookup)]).length
          = 1 := rfl
      have h3 : ((([(⟨key, List.range' 0 addrs.length, []⟩ : MessageAddressTableLookup)]).map
          serializeAddressTableLookup).flatten).length
          = (serializeAddressTableLookup ⟨key, List.range' 0 addrs.length, []⟩).length := by
        simp
      rw [h1, h2, h3, hlenW, e2, e1, length_serializeLookup_scenario key hwfk]
      omega
    · intro p hpm
      rcases List.mem_cons.mp hpm with rfl | hpm2
      · exact hwfp
      · simp only [List.mem_singleton] at hpm2
        rw [hpm2]
        exact systemProgramId_wf
    · exact hwfb
    · intro ci hci
      exact length_serializeCI ci (hpropW ci hci).1 (hpropW ci hci).2
  have hmlO : (serializeMessage
      ⟨⟨1, 0, 1⟩, payer.publicKey :: (addrs ++ [systemProgramId]),
        env.latestBlockhash.blockhash, cisO, []⟩).length
      = 101 + 49 * addrs.length + (encodeCompactU16 (addrs.length + 2)).length
        + (encodeCompactU16 addrs.length).length := by
    rw [length_serializeMessage]
    · dsimp only
      have h1 : (payer.publicKey :: (addrs ++ [systemProgramId])).length
          = addrs.length + 2 := by
        simp
      have h2 : (([] : List MessageAddressTableLookup)).length = 0 := rfl
      have h3 : ((([] : List MessageAddressTableLookup).map
          serializeAddressTableLookup).flatten).length = 0 := rfl
      rw [h1, h2, h3, hlenO, e0]
      omega
    · intro p hpm
      rcases List.mem_cons.mp hpm with rfl | hpm2
      · exact hwfp
      · rcases List.mem_append.mp hpm2 with hpa | hpss
        · exact hwfa p hpa
        · simp only [List.mem_singleton] at hpss
          rw [hpss]
          exact systemProgramId_wf
    · exact hwfb
    · intro ci hci
      exact length_serializeCI ci (hpropO ci hci).1 (hpropO ci hci).2
  have htxW : (serializeTx ⟨[ed25519Sign payer (serializeMessage
      ⟨⟨1, 0, 1⟩, [payer.publicKey, systemProgramId], env.latestBlockhash.blockhash, cisW,
        [⟨key, List.range' 0 addrs.length, []⟩]⟩)],
      ⟨⟨1, 0, 1⟩, [payer.publicKey, systemProgramId], env.latestBlockhash.blockhash, cisW,
        [⟨key, List.range' 0 addrs.length, []⟩]⟩⟩).length
      = 200 + 18 * addrs.length + 2 * (encodeCompactU16 addrs.length).length := by
    rw [length_serializeTx_single _ (length_ed25519Sign _ _), hmlW]
    omega
  have htxO : (serializeTx ⟨[ed25519Sign payer (serializeMessage
      ⟨⟨1, 0, 1⟩, payer.publicKey :: (addrs ++ [systemProgramId]),
        env.latestBlockhash.blockhash, cisO, []⟩)],
      ⟨⟨1, 0, 1⟩, payer.publicKey :: (addrs ++ [systemProgramId]),
        env.latestBlockhash.blockhash, cisO, []⟩⟩).length
      = 166 + 49 * addrs.length + (encodeCompactU16 (addrs.length + 2)).length
        + (encodeCompactU16 addrs.length).length := by
    rw [length_serializeTx_single _ (length_ed25519Sign _ _), hmlO]
    omega
  simp [compareTxSize, henv, hmsgW, hmsgO, hsignW, hsignO, htxW, htxO]

/-- C1: compareTxSize builds two versioned transactions from the same
payer, the same fetched blockhash, and the same transfer-per-table-address
instruction list, one compiled against the fetched lookup table and one
compiled without it, and reports the serialized byte length of each; the
two compilations differ only in whether the lookup table is supplied. -/
theorem compareTxSize_two_identical_compiles (env : Env) (payer : Keypair)
    (tableAddr : Pubkey) (t : AddressLookupTableAccount)
    (sizeWithoutTable sizeWithTable : Nat)
    (ht : env.lookupValue = some t)
    (hres : (compareTxSize env payer tableAddr).2
      = .ok (some (sizeWithoutTable, sizeWithTable))) :
    ∃ msgW msgO txW txO,
      compileToV0Message payer.publicKey env.latestBlockhash.blockhash
          (transferInstructions payer.publicKey t.state.addresses) [t] = .ok msgW ∧
      compileToV0Message payer.publicKey env.latestBlockhash.blockhash
          (transferInstructions payer.publicKey t.state.addresses) [] = .ok msgO ∧
      signTransaction payer (VersionedTransaction.new msgW) = .ok txW ∧
      signTransaction payer (VersionedTransaction.new msgO) = .ok txO ∧
      sizeWithTable = (serializeTx txW).length ∧
      sizeWithoutTable = (serializeTx txO).length := by
  unfold compareTxSize at hres
  rw [ht] at hres
  dsimp only at hres
  cases hW : compileToV0Message payer.publicKey env.latestBlockhash.blockhash
      (transferInstructions payer.publicKey t.state.addresses) [t] with
  | error e =>
      rw [hW] at hres
      simp at hres
  | ok msgW =>
      rw [hW] at hres
      dsimp only at hres
      cases hsW : signTransaction payer (VersionedTransaction.new msgW) with
      | error e =>
          rw [hsW] at hres
          simp at hres
      | ok txW =>
          rw [hsW] at hres
          dsimp only at hres
          cases hO : compileToV0Message payer.publicKey env.latestBlockhash.blockhash
              (transferInstructions payer.publicKey t.state.addresses) [] with
          | error e =>
              rw [hO] at hres
              simp at hres
          | ok msgO =>
              rw [hO] at hres
              dsimp only at hres
              cases hsO : signTransaction payer (VersionedTransaction.new msgO) with
              | error e =>
                  rw [hsO] at hres
                  simp at hres
              | ok txO =>
                  rw [hsO] at hres
                  simp at hres
                  exact ⟨msgW, msgO, txW, txO, rfl, rfl, hsW, hsO,
                    hres.2.symm, hres.1.symm⟩

/-- C1 witness: on a one-address table the reported sizes are 217 and 220
and decompose into the two compilations. -/
theorem compareTxSize_two_identical_compiles_witness :
    (compareTxSize (sampleEnv [samplePk 1]) samplePayer (samplePk 201)).2
      = .ok (some (217, 220)) ∧
    ∃ msgW msgO txW txO,
      compileToV0Message samplePayer.publicKey
          (sampleEnv [samplePk 1]).latestBlockhash.blockhash
          (transferInstructions samplePayer.publicKey
            (sampleTable [samplePk 1]).state.addresses) [sampleTable [samplePk 1]]
          = .ok msgW ∧
      compileToV0Message samplePayer.publicKey
          (sampleEnv [samplePk 1]).latestBlockhash.blockhash
          (transferInstructions samplePayer.publicKey
            (sampleTable [samplePk 1]).state.addresses) [] = .ok msgO ∧
      signTransaction samplePayer (VersionedTransaction.new msgW) = .ok txW ∧
      signTransaction samplePayer (VersionedTransaction.new msgO) = .ok txO ∧
      220 = (serializeTx txW).length ∧ 217 = (serializeTx txO).length :=
  ⟨rfl,
    compareTxSize_two_identical_compiles (sampleEnv [samplePk 1]) samplePayer
      (samplePk 201) (sampleTable [samplePk 1]) 217 220 rfl rfl⟩

/-- C2 counterexample: on a table storing exactly one address, with the
transfer referencing it, compareTxSize reports 217 bytes without the table
and 220 bytes with it, so the with-table transaction is strictly larger,
not smaller: the 34 bytes of lookup metadata outweigh the single 31-byte
saving. -/
theorem compareTxSize_one_address_larger :
    (compareTxSize (sampleEnv [samplePk 1]) samplePayer (samplePk 201)).2
      = .ok (some (217, 220)) ∧ ¬(220 < 217) ∧ 217 < 220 :=
  ⟨rfl, by decide, by decide⟩

/-- C2 amended: for every table of 2 to 254 distinct well-formed addresses,
distinct from the payer and the system program, compareTxSize reports a
strictly smaller size with the lookup table than without (at one address
the with-table transaction is 3 bytes larger, and at 255 or 256 addresses
compilation fails the 256-static-key assertion). -/
theorem compareTxSize_with_table_smaller (env : Env) (payer : Keypair) (tableAddr : Pubkey)
    (addrs : List Pubkey) (key : Pubkey)
    (henv : env.lookupValue = some ⟨key, ⟨addrs⟩⟩)
    (hps : payer.publicKey ≠ systemProgramId)
    (hp : ∀ a ∈ addrs, a ≠ payer.publicKey) (hs : ∀ a ∈ addrs, a ≠ systemProgramId)
    (hnd : addrs.Nodup) (h2 : 2 ≤ addrs.length) (h254 : addrs.length ≤ 254)
    (hwfp : payer.publicKey.wf) (hwfa : ∀ a ∈ addrs, a.wf) (hwfk : key.wf)
    (hwfb : env.latestBlockhash.blockhash.length = 32) :
    ∃ sizeWithoutTable sizeWithTable,
      (compareTxSize env payer tableAddr).2
        = .ok (some (sizeWithoutTable, sizeWithTable)) ∧
      sizeWithTable < sizeWithoutTable := by
  have hne : addrs ≠ [] := by
    intro hc
    rw [hc] at h2
    simp at h2
  have hsz := compareTxSize_scenario env payer tableAddr addrs key henv hps hp hs hnd hne
    h254 hwfp hwfa hwfk hwfb
  refine ⟨_, _, hsz, ?_⟩
  have ek := length_encodeCompactU16 addrs.length (by omega)
  have ek2 := length_encodeCompactU16 (addrs.length + 2) (by omega)
  split_ifs at ek ek2 <;> omega

/-- C2 witness: on a two-address table the with-table transaction is
strictly smaller. -/
theorem compareTxSize_with_table_smaller_witness :
    ∃ sizeWithoutTable sizeWithTable,
      (compareTxSize (sampleEnv [samplePk 1, samplePk 2]) samplePayer (samplePk 201)).2
        = .ok (some (sizeWithoutTable, sizeWithTable)) ∧
      sizeWithTable < sizeWithoutTable :=
  compareTxSize_with_table_smaller (sampleEnv [samplePk 1, samplePk 2]) samplePayer
    (samplePk 201) [samplePk 1, samplePk 2] (samplePk 201) rfl (by decide) (by decide)
    (by decide) (by decide) (by decide) (by decide) (by decide) (by decide) (by decide) rfl

set_option maxRecDepth 8000 in
/-- C3 counterexample: on the four-address table the reported sizes are 364
without and 274 with the table: the saving is 90 bytes, not the claimed
31 bytes per replaced reference (which would be 124). -/
theorem compareTxSize_savings_not_31_each :
    (compareTxSize (sampleEnv [samplePk 1, samplePk 2, samplePk 3, samplePk 4])
        samplePayer (samplePk 201)).2 = .ok (some (364, 274)) ∧
    364 - 274 ≠ 31 * 4 :=
  ⟨rfl, by decide⟩

/-- C3 amended: holding payer, blockhash and instruction list fixed, the
saving of the with-table transaction is exactly 31 bytes per replaced
address reference minus a fixed 34-byte overhead for the lookup-table
metadata (32-byte table key plus two one-byte index-array lengths): for
every table of 1 to 125 distinct well-formed addresses, distinct from the
payer and the system program, sizeWithTable + 31k = sizeWithoutTable + 34. -/
theorem compareTxSize_savings_31_minus_34 (env : Env) (payer : Keypair)
    (tableAddr : Pubkey) (addrs : List Pubkey) (key : Pubkey)
    (henv : env.lookupValue = some ⟨key, ⟨addrs⟩⟩)
    (hps : payer.publicKey ≠ systemProgramId)
    (hp : ∀ a ∈ addrs, a ≠ payer.publicKey) (hs : ∀ a ∈ addrs, a ≠ systemProgramId)
    (hnd : addrs.Nodup) (h1 : 1 ≤ addrs.length) (h125 : addrs.length ≤ 125)
    (hwfp : payer.publicKey.wf) (hwfa : ∀ a ∈ addrs, a.wf) (hwfk : key.wf)
    (hwfb : env.latestBlockhash.blockhash.length = 32) :
    ∃ sizeWithoutTable sizeWithTable,
      (compareTxSize env payer tableAddr).2
        = .ok (some (sizeWithoutTable, sizeWithTable)) ∧
      sizeWithTable + 31 * addrs.length = sizeWithoutTable + 34 := by
  have hne : addrs ≠ [] := by
    intro hc
    rw [hc] at h1
    simp at h1
  have hsz := compareTxSize_scenario env payer tableAddr addrs key henv hps hp hs hnd hne
    (by omega) hwfp hwfa hwfk hwfb
  refine ⟨_, _, hsz, ?_⟩
  have ek := length_encodeCompactU16 addrs.length (by omega)
  have ek2 := length_encodeCompactU16 (addrs.length + 2) (by omega)
  rw [if_pos (show addrs.length < 128 by omega)] at ek
  rw [if_pos (show addrs.length + 2 < 128 by omega)] at ek2
  omega

/-- C3 witness: on a one-address table the sizes satisfy
sizeWithTable + 31 = sizeWithoutTable + 34. -/
theorem compareTxSize_savings_31_minus_34_witness :
    ∃ sizeWithoutTable sizeWithTable,
      (compareTxSize (sampleEnv [samplePk 1]) samplePayer (samplePk 201)).2
        = .ok (some (sizeWithoutTable, sizeWithTable)) ∧
      sizeWithTable + 31 * ([samplePk 1] : List Pubkey).length = sizeWithoutTable + 34 :=
  compareTxSize_savings_31_minus_34 (sampleEnv [samplePk 1]) samplePayer (samplePk 201)
    [samplePk 1] (samplePk 201) rfl (by decide) (by decide) (by decide) (by decide)
    (by decide) (by decide) (by decide) (by decide) (by decide) rfl

/-- A successful getMessageComponents puts the payer first among the static
keys. -/
theorem gmc_ok_head (p : Pubkey) (m : KeyMetaMap) (hd : MessageHeader)
    (statics : List Pubkey) (h : getMessageComponents p m = .ok (hd, statics)) :
    statics.head? = some p := by
  unfold getMessageComponents at h
  dsimp only at h
  split at h
  · split at h
    · rename_i hcond
      cases hws : List.filter (fun e => e.2.isSigner && e.2.isWritable) m with
      | nil =>
          rw [hws] at hcond
          simp at hcond
      | cons e l2 =>
          rw [hws] at hcond h
          simp only [List.map_cons, List.head?_cons, Option.some.injEq] at hcond
          simp only [Except.ok.injEq, Prod.mk.injEq] at h
          rw [← h.2]
          simp [hcond]
    · exact absurd h (by simp)
  · exact absurd h (by simp)

/-- A successfully compiled v0 message carries the given blockhash and has
the payer as its first static key. -/
theorem compileToV0Message_ok_shape (p : Pubkey) (bh : List Nat)
    (instrs : List TransactionInstruction) (tables : List AddressLookupTableAccount)
    (m : MessageV0) (h : compileToV0Message p bh instrs tables = .ok m) :
    m.recentBlockhash = bh ∧ m.staticAccountKeys.head? = some p := by
  unfold compileToV0Message at h
  dsimp only at h
  cases he : extractAllTableLookups tables (compiledKeysCompile p instrs) with
  | error e =>
      rw [he] at h
      simp [Bind.bind, Except.bind] at h
  | ok quad =>
      obtain ⟨ls, ws, rs, m1⟩ := quad
      rw [he, except_bind_ok] at h
      dsimp only at h
      cases hg : getMessageComponents p m1 with
      | error e =>
          rw [hg] at h
          simp [Bind.bind, Except.bind] at h
      | ok pr =>
          obtain ⟨hd, statics⟩ := pr
          rw [hg, except_bind_ok] at h
          dsimp only at h
          cases hc : compileInstructions (statics ++ ws ++ rs) instrs with
          | error e =>
              rw [hc] at h
              simp [Bind.bind, Except.bind] at h
          | ok cis =>
              rw [hc, except_bind_ok] at h
              have hm : (⟨hd, statics, bh, cis, ls⟩ : MessageV0) = m := by
                simpa [pure, Except.pure] using h
              rw [← hm]
              exact ⟨rfl, gmc_ok_head p m1 hd statics hg⟩

/-- C4: for every instruction list, createAndSendV0Tx performs, in order:
fetch the latest blockhash, build the v0 message from that blockhash plus
the instructions with the signer as payer, sign, submit, and await the
confirmation against the fetched blockhash validity window, before the
success print; the blockhash the transaction carries is exactly the one
fetched within the same call, immediately before signing. -/
theorem createAndSendV0Tx_order (env : Env) (payer : Keypair)
    (instrs : List TransactionInstruction) (msg : MessageV0)
    (hcompile : compileToV0Message payer.publicKey env.latestBlockhash.blockhash instrs []
      = .ok msg)
    (hconfirm : env.confirmOk = true) :
    ∃ tx, signTransaction payer (VersionedTransaction.new msg) = .ok tx ∧
      tx.message = msg ∧
      msg.recentBlockhash = env.latestBlockhash.blockhash ∧
      createAndSendV0Tx env payer instrs
        = ([Event.getLatestBlockhash env.latestBlockhash,
            Event.compileMessage msg,
            Event.signTx tx,
            Event.sendTransaction tx env.sendTxId,
            Event.confirmTransaction env.sendTxId env.latestBlockhash.blockhash
              env.latestBlockhash.lastValidBlockHeight,
            Event.printSuccess env.sendTxId], .ok env.sendTxId) := by
  obtain ⟨hbh, hhead⟩ := compileToV0Message_ok_shape _ _ _ _ _ hcompile
  obtain ⟨rest, hstat⟩ : ∃ rest, msg.staticAccountKeys = payer.publicKey :: rest := by
    cases hsk : msg.staticAccountKeys with
    | nil =>
        rw [hsk] at hhead
        simp at hhead
    | cons x xs =>
        rw [hsk] at hhead
        simp at hhead
        exact ⟨xs, by rw [hhead]⟩
  have hfind : findIndex payer.publicKey
      (VersionedTransaction.new msg).message.staticAccountKeys = some 0 := by
    show findIndex payer.publicKey msg.staticAccountKeys = some 0
    rw [hstat]
    simp [findIndex]
  have hsign : signTransaction payer (VersionedTransaction.new msg)
      = .ok ⟨(VersionedTransaction.new msg).signatures.set 0
          (ed25519Sign payer (serializeMessage msg)), msg⟩ := by
    unfold signTransaction
    rw [hfind]
    rfl
  refine ⟨_, hsign, rfl, hbh, ?_⟩
  unfold createAndSendV0Tx
  dsimp only
  rw [hcompile]
  dsimp only
  rw [hsign]
  dsimp only
  rw [hconfirm]
  simp

/-- C4 witness: the full ordered trace on a concrete environment and a
concrete transfer instruction. -/
theorem createAndSendV0Tx_order_witness :
    ∃ msg, compileToV0Message samplePayer.publicKey
        (sampleEnv []).latestBlockhash.blockhash sampleInstrs [] = .ok msg ∧
      ∃ tx, signTransaction samplePayer (VersionedTransaction.new msg) = .ok tx ∧
        tx.message = msg ∧
        msg.recentBlockhash = (sampleEnv []).latestBlockhash.blockhash ∧
        createAndSendV0Tx (sampleEnv []) samplePayer sampleInstrs
          = ([Event.getLatestBlockhash (sampleEnv []).latestBlockhash,
              Event.compileMessage msg,
              Event.signTx tx,
              Event.sendTransaction tx (sampleEnv []).sendTxId,
              Event.confirmTransaction (sampleEnv []).sendTxId
                (sampleEnv []).latestBlockhash.blockhash
                (sampleEnv []).latestBlockhash.lastValidBlockHeight,
              Event.printSuccess (sampleEnv []).sendTxId], .ok (sampleEnv []).sendTxId) := by
  obtain ⟨msg, hmsg⟩ : ∃ msg, compileToV0Message samplePayer.publicKey
      (sampleEnv []).latestBlockhash.blockhash sampleInstrs [] = .ok msg := ⟨_, rfl⟩
  exact ⟨msg, hmsg,
    createAndSendV0Tx_order (sampleEnv []) samplePayer sampleInstrs msg hmsg rfl⟩

/-- C5 counterexample: on a concrete successful run the trace contains the
awaited confirmTransaction event strictly before the success print, so
confirmation is verified before the success message, contrary to the
claim that the confirm call is commented out. -/
theorem confirm_before_success_concrete :
    ((createAndSendV0Tx (sampleEnv []) samplePayer sampleInstrs).1.takeWhile
        (fun e => ! e.isSuccessLine)).any Event.isConfirm = true ∧
    (createAndSendV0Tx (sampleEnv []) samplePayer sampleInstrs).1.any
        Event.isSuccessLine = true := by
  decide

/-- C5 amended: the submission path sends with sendTransaction and then
awaits confirmTransaction with the signature and both blockhash fields
before printing the success line (the commented-out call is
sendAndConfirmTransaction): whenever the success line is printed, the
confirmation call completed, immediately before it, with the fetched
blockhash fields. -/
theorem printSuccess_only_after_confirm (env : Env) (payer : Keypair)
    (instrs : List TransactionInstruction) (txid : String)
    (hmem : Event.printSuccess txid ∈ (createAndSendV0Tx env payer instrs).1) :
    env.confirmOk = true ∧
    ∃ pre, (createAndSendV0Tx env payer instrs).1
      = pre ++ [Event.confirmTransaction env.sendTxId env.latestBlockhash.blockhash
          env.latestBlockhash.lastValidBlockHeight,
        Event.printSuccess txid] := by
  unfold createAndSendV0Tx at hmem ⊢
  dsimp only at hmem ⊢
  cases hW : compileToV0Message payer.publicKey env.latestBlockhash.blockhash instrs [] with
  | error e =>
      rw [hW] at hmem
      simp at hmem
  | ok msg =>
      rw [hW] at hmem
      dsimp only at hmem ⊢
      cases hs : signTransaction payer (VersionedTransaction.new msg) with
      | error e =>
          rw [hs] at hmem
          simp at hmem
      | ok tx =>
          rw [hs] at hmem
          dsimp only at hmem ⊢
          by_cases hc : env.confirmOk = true
          · rw [if_pos hc] at hmem ⊢
            simp at hmem
            subst hmem
            refine ⟨hc, ⟨[Event.getLatestBlockhash env.latestBlockhash,
              Event.compileMessage msg, Event.signTx tx,
              Event.sendTransaction tx env.sendTxId], ?_⟩⟩
            simp
          · rw [if_neg hc] at hmem
            simp at hmem

/-- C5 witness: the ordering statement instantiated on the concrete run. -/
theorem printSuccess_only_after_confirm_witness :
    (sampleEnv []).confirmOk = true ∧
    ∃ pre, (createAndSendV0Tx (sampleEnv []) samplePayer sampleInstrs).1
      = pre ++ [Event.confirmTransaction (sampleEnv []).sendTxId
          (sampleEnv []).latestBlockhash.blockhash
          (sampleEnv []).latestBlockhash.lastValidBlockHeight,
        Event.printSuccess (sampleEnv []).sendTxId] :=
  printSuccess_only_after_confirm (sampleEnv []) samplePayer sampleInstrs
    (sampleEnv []).sendTxId (by decide)

/-- C6 counterexample: fetching a nonexistent table makes fetchALTs
dereference the null account value and throw, rather than return an
explicit absent result. -/
theorem fetchALTs_null_throws :
    (fetchALTs sampleEnvAbsent (samplePk 201)).2 = .error (.nullDereference "key") := rfl

/-- C6 amended: on a nonexistent account fetchALTs throws a TypeError (a
null dereference of the account key) instead of returning an absent
result; on an existing account it returns exactly the fetched state, never
a populated-but-garbage one. -/
theorem fetchALTs_behavior (env : Env) (addr : Pubkey) :
    (env.lookupValue = none →
      fetchALTs env addr = ([Event.getAddressLookupTable addr none],
        .error (.nullDereference "key"))) ∧
    ∀ acct, env.lookupValue = some acct →
      fetchALTs env addr = ([Event.getAddressLookupTable addr (some acct)], .ok acct) := by
  constructor
  · intro h
    unfold fetchALTs
    rw [h]
  · intro acct h
    unfold fetchALTs
    rw [h]

/-- C6 witness: on an existing account the fetched state is returned
unchanged. -/
theorem fetchALTs_behavior_witness :
    fetchALTs (sampleEnv [samplePk 1]) (samplePk 201)
      = ([Event.getAddressLookupTable (samplePk 201) (some (sampleTable [samplePk 1]))],
        .ok (sampleTable [samplePk 1])) :=
  (fetchALTs_behavior (sampleEnv [samplePk 1]) (samplePk 201)).2
    (sampleTable [samplePk 1]) rfl

/-- Every mutating event in the submission path is the send of the signed
transaction compiled from the given instructions. -/
theorem createAndSendV0Tx_mutating (env : Env) (payer : Keypair)
    (instrs : List TransactionInstruction) (e : Event)
    (hmem : e ∈ (createAndSendV0Tx env payer instrs).1) (hmut : e.isMutating = true) :
    ∃ msg tx, compileToV0Message payer.publicKey env.latestBlockhash.blockhash instrs []
        = .ok msg ∧ signTransaction payer (VersionedTransaction.new msg) = .ok tx ∧
      e = Event.sendTransaction tx env.sendTxId := by
  unfold createAndSendV0Tx at hmem
  dsimp only at hmem
  cases hW : compileToV0Message payer.publicKey env.latestBlockhash.blockhash instrs [] with
  | error e2 =>
      rw [hW] at hmem
      simp at hmem
      rw [hmem] at hmut
      simp [Event.isMutating] at hmut
  | ok msg =>
      rw [hW] at hmem
      dsimp only at hmem
      cases hs : signTransaction payer (VersionedTransaction.new msg) with
      | error e2 =>
          rw [hs] at hmem
          simp at hmem
          rcases hmem with rfl | rfl <;> simp [Event.isMutating] at hmut
      | ok tx =>
          rw [hs] at hmem
          dsimp only at hmem
          by_cases hc : env.confirmOk = true
          · rw [if_pos hc] at hmem
            simp at hmem
            rcases hmem with rfl | rfl | rfl | rfl | rfl | rfl
            · simp [Event.isMutating] at hmut
            · simp [Event.isMutating] at hmut
            · simp [Event.isMutating] at hmut
            · exact ⟨msg, tx, rfl, hs, rfl⟩
            · simp [Event.isMutating] at hmut
            · simp [Event.isMutating] at hmut
          · rw [if_neg hc] at hmem
            simp at hmem
            rcases hmem with rfl | rfl | rfl | rfl | rfl
            · simp [Event.isMutating] at hmut
            · simp [Event.isMutating] at hmut
            · simp [Event.isMutating] at hmut
            · exact ⟨msg, tx, rfl, hs, rfl⟩
            · simp [Event.isMutating] at hmut

/-- C7: the table address returned by createLookupTable is a deterministic
function of the authority and the slot (for any payers), and constructing
the instruction has no on-chain effect: every state-mutating event in a
createALTs run is the submission of a transaction carrying exactly the
constructed creation instruction. -/
theorem createLookupTable_deterministic_pure :
    (∀ (a₁ p₁ : Pubkey) (s₁ : Nat) (a₂ p₂ : Pubkey) (s₂ : Nat), a₁ = a₂ → s₁ = s₂ →
      (AddressLookupTableProgram.createLookupTable a₁ p₁ s₁).2
        = (AddressLookupTableProgram.createLookupTable a₂ p₂ s₂).2) ∧
    ∀ (env : Env) (payer : Keypair) (e : Event),
      e ∈ (createALTs env payer).1 → e.isMutating = true →
      ∃ msg tx,
        compileToV0Message payer.publicKey env.latestBlockhash.blockhash
          [(AddressLookupTableProgram.createLookupTable payer.publicKey payer.publicKey
              env.slot).1] [] = .ok msg ∧
        signTransaction payer (VersionedTransaction.new msg) = .ok tx ∧
        e = Event.sendTransaction tx env.sendTxId := by
  constructor
  · intro a₁ p₁ s₁ a₂ p₂ s₂ ha hs
    subst ha
    subst hs
    rfl
  · intro env payer e hmem hmut
    rcases hct : AddressLookupTableProgram.createLookupTable payer.publicKey
      payer.publicKey env.slot with ⟨inst, addr⟩
    unfold createALTs at hmem
    dsimp only at hmem
    rw [hct] at hmem
    dsimp only at hmem
    rw [show createAndSendV0Tx env payer [inst]
        = ((createAndSendV0Tx env payer [inst]).1, (createAndSendV0Tx env payer [inst]).2)
      from (Prod.mk.eta).symm] at hmem
    dsimp only at hmem
    rcases List.mem_cons.mp hmem with rfl | hmem2
    · simp [Event.isMutating] at hmut
    · obtain ⟨msg, tx, h1, h2, h3⟩ :=
        createAndSendV0Tx_mutating env payer [inst] e hmem2 hmut
      exact ⟨msg, tx, h1, h2, h3⟩

set_option maxRecDepth 16000 in
/-- C7 witness: equal addresses for equal authority and slot under two
different payers, and the only mutating event of a concrete createALTs
run is the submission of the constructed instruction. -/
theorem createLookupTable_deterministic_pure_witness :
    (AddressLookupTableProgram.createLookupTable (samplePk 200) (samplePk 200) 55).2
      = (AddressLookupTableProgram.createLookupTable (samplePk 200) (samplePk 1) 55).2 ∧
    ∃ msg tx,
      compileToV0Message samplePayer.publicKey (sampleEnv []).latestBlockhash.blockhash
        [(AddressLookupTableProgram.createLookupTable samplePayer.publicKey
            samplePayer.publicKey (sampleEnv []).slot).1] [] = .ok msg ∧
      signTransaction samplePayer (VersionedTransaction.new msg) = .ok tx ∧
      ((createALTs (sampleEnv []) samplePayer).1.getD 4 (Event.sleep 0))
        = Event.sendTransaction tx (sampleEnv []).sendTxId :=
  ⟨createLookupTable_deterministic_pure.1 (samplePk 200) (samplePk 200) 55
      (samplePk 200) (samplePk 1) 55 rfl rfl,
   createLookupTable_deterministic_pure.2 (sampleEnv []) samplePayer
     ((createALTs (sampleEnv []) samplePayer).1.getD 4 (Event.sleep 0))
     (by decide) (by decide)⟩

/-- Decoding fixed-width 32-byte blocks recovers exactly the encoded block
list when the fuel covers the block count. -/
theorem chunk32_flatten (blocks : List (List Nat)) (h : ∀ b ∈ blocks, b.length = 32) :
    ∀ fuel, blocks.length ≤ fuel → chunk32 fuel blocks.flatten = blocks := by
  induction blocks with
  | nil =>
      intro fuel _
      cases fuel with
      | zero => rfl
      | succ f => rfl
  | cons b rest ih =>
      intro fuel hfuel
      cases fuel with
      | zero => simp at hfuel
      | succ f =>
          have hb : b.length = 32 := h b (by simp)
          obtain ⟨x, xs, rfl⟩ : ∃ x xs, b = x :: xs := by
            cases b with
            | nil => simp at hb
            | cons x xs => exact ⟨x, xs, rfl⟩
          have htake : ((x :: xs) ++ rest.flatten).take 32 = x :: xs := by
            rw [← hb]
            exact List.take_left _ _
          have hdrop : ((x :: xs) ++ rest.flatten).drop 32 = rest.flatten := by
            rw [← hb]
            exact List.drop_left _ _
          have hstep : chunk32 (f + 1) ((x :: xs) ++ rest.flatten)
              = ((x :: xs) ++ rest.flatten).take 32
                :: chunk32 f (((x :: xs) ++ rest.flatten).drop 32) := rfl
          have hrest := ih (fun c hc => h c (by simp [hc])) f (by simpa using hfuel)
          show chunk32 (f + 1) ((x :: xs) :: rest).flatten = (x :: xs) :: rest
          rw [List.flatten_cons, hstep, htake, hdrop, hrest]

/-- C8: the extend instruction built by addAddress carries the full given
address list unchanged (no client-side truncation), and the on-chain
extend handler rejects any extension past 256 total addresses as an
overflow while an accepted extension appends the addresses exactly,
keeping every index within the 1-byte space. -/
theorem extend_overflow_behavior :
    (∀ (payer authority lookupTable : Pubkey) (addresses : List Pubkey),
      (∀ a ∈ addresses, a.wf) →
      extendInstructionAddresses
          (AddressLookupTableProgram.extendLookupTable payer authority lookupTable
            addresses)
        = addresses.map Pubkey.bytes) ∧
    (∀ table newAddresses : List Pubkey, table.length + newAddresses.length > 256 →
      onChainExtend table newAddresses = .overflow) ∧
    ∀ (table newAddresses result : List Pubkey),
      onChainExtend table newAddresses = .extended result →
      result = table ++ newAddresses ∧ table.length + newAddresses.length ≤ 256 := by
  refine ⟨?_, ?_, ?_⟩
  · intro payer authority lookupTable addresses hwf
    have hblocks : ∀ b ∈ addresses.map Pubkey.bytes, b.length = 32 := by
      intro b hb
      simp only [List.mem_map] at hb
      obtain ⟨a, ha, rfl⟩ := hb
      exact hwf a ha
    unfold extendInstructionAddresses AddressLookupTableProgram.extendLookupTable
    dsimp only
    have hdrop : ((u32le 2 ++ u64le addresses.length
        ++ (addresses.map Pubkey.bytes).flatten)).drop 12
        = (addresses.map Pubkey.bytes).flatten := by
      simp [u32le, u64le]
    rw [hdrop]
    apply chunk32_flatten _ hblocks
    have hlen : ((addresses.map Pubkey.bytes).flatten).length = 32 * addresses.length :=
      length_flatten_bytes addresses hwf
    simp [u32le, u64le, hlen]
    omega
  · intro table newAddresses h
    unfold onChainExtend
    rw [if_pos h]
  · intro table newAddresses result h
    unfold onChainExtend at h
    split at h
    · exact absurd h (by simp)
    · rename_i hcond
      simp at h
      exact ⟨h.symm, by omega⟩

set_option maxRecDepth 16000 in
/-- C8 witness: the one-address extend instruction carries that address,
extending a 255-entry table by two addresses overflows, and a small
accepted extension appends exactly. -/
theorem extend_overflow_behavior_witness :
    extendInstructionAddresses
        (AddressLookupTableProgram.extendLookupTable (samplePk 200) (samplePk 200)
          (samplePk 201) [samplePk 1])
      = [samplePk 1].map Pubkey.bytes ∧
    onChainExtend (List.replicate 255 (samplePk 1)) [samplePk 2, samplePk 3]
      = .overflow ∧
    ([samplePk 1, samplePk 2] = [samplePk 1] ++ [samplePk 2] ∧
      ([samplePk 1] : List Pubkey).length + ([samplePk 2] : List Pubkey).length ≤ 256) :=
  ⟨extend_overflow_behavior.1 (samplePk 200) (samplePk 200) (samplePk 201)
      [samplePk 1] (by decide),
   extend_overflow_behavior.2.1 (List.replicate 255 (samplePk 1))
      [samplePk 2, samplePk 3] (by simp),
   extend_overflow_behavior.2.2 [samplePk 1] [samplePk 2] [samplePk 1, samplePk 2] rfl⟩

/-- C9: main is strictly sequential with no branching or retry: on a
successful run its trace is exactly the createALTs trace, then the single
60000 millisecond sleep, then the trace of extending with the four
hardcoded addresses, then the compareTxSize trace, and its result is the
final step result. -/
theorem main_sequential (env : Env) (payer : Keypair) (tableAddress : Pubkey)
    (txid : String)
    (h1 : (createALTs env payer).2 = .ok tableAddress)
    (h3 : (addAddress env payer tableAddress mainAddresses).2 = .ok txid) :
    (main env payer).1
      = (createALTs env payer).1 ++ [Event.sleep 60000]
        ++ (addAddress env payer tableAddress mainAddresses).1
        ++ (compareTxSize env payer tableAddress).1 ∧
    (main env payer).2 = ((compareTxSize env payer tableAddress).2).map (fun _ => ()) := by
  unfold main
  rw [show createALTs env payer = ((createALTs env payer).1, (createALTs env payer).2)
    from (Prod.mk.eta).symm, h1]
  dsimp only
  rw [show addAddress env payer tableAddress mainAddresses
      = ((addAddress env payer tableAddress mainAddresses).1,
         (addAddress env payer tableAddress mainAddresses).2)
    from (Prod.mk.eta).symm, h3]
  dsimp only
  rw [show compareTxSize env payer tableAddress
      = ((compareTxSize env payer tableAddress).1, (compareTxSize env payer tableAddress).2)
    from (Prod.mk.eta).symm]
  dsimp only
  exact ⟨by simp, rfl⟩

set_option maxRecDepth 16000 in
/-- C9 witness: the sequential trace equation on a concrete run, with the
concrete derived table address. -/
theorem main_sequential_witness :
    (main (sampleEnv []) samplePayer).1
      = (createALTs (sampleEnv []) samplePayer).1 ++ [Event.sleep 60000]
        ++ (addAddress (sampleEnv []) samplePayer
            (AddressLookupTableProgram.createLookupTable samplePayer.publicKey
              samplePayer.publicKey (sampleEnv []).slot).2 mainAddresses).1
        ++ (compareTxSize (sampleEnv []) samplePayer
            (AddressLookupTableProgram.createLookupTable samplePayer.publicKey
              samplePayer.publicKey (sampleEnv []).slot).2).1 ∧
    (main (sampleEnv []) samplePayer).2
      = ((compareTxSize (sampleEnv []) samplePayer
          (AddressLookupTableProgram.createLookupTable samplePayer.publicKey
            samplePayer.publicKey (sampleEnv []).slot).2).2).map (fun _ => ()) :=
  main_sequential (sampleEnv []) samplePayer
    (AddressLookupTableProgram.createLookupTable samplePayer.publicKey
      samplePayer.publicKey (sampleEnv []).slot).2 "sig" rfl rfl

/-- C10: when the table account is absent, compareTxSize returns early
with only the fetch event in its trace, signs nothing, prints no sizes,
and returns an ok none rather than throwing. -/
theorem compareTxSize_absent_early_return (env : Env) (payer : Keypair) (addr : Pubkey)
    (h : env.lookupValue = none) :
    compareTxSize env payer addr = ([Event.getAddressLookupTable addr none], .ok none) ∧
    (∀ tx, Event.signTx tx ∉ (compareTxSize env payer addr).1) ∧
    ∀ a b, Event.printTxSizes a b ∉ (compareTxSize env payer addr).1 := by
  have heq : compareTxSize env payer addr
      = ([Event.getAddressLookupTable addr none], .ok none) := by
    unfold compareTxSize
    rw [h]
  refine ⟨heq, ?_, ?_⟩
  · intro tx
    rw [heq]
    simp
  · intro a b
    rw [heq]
    simp

/-- C10 witness: the early return on a concrete absent environment. -/
theorem compareTxSize_absent_early_return_witness :
    compareTxSize sampleEnvAbsent samplePayer (samplePk 201)
      = ([Event.getAddressLookupTable (samplePk 201) none], .ok none) ∧
    (∀ tx, Event.signTx tx
      ∉ (compareTxSize sampleEnvAbsent samplePayer (samplePk 201)).1) ∧
    ∀ a b, Event.printTxSizes a b
      ∉ (compareTxSize sampleEnvAbsent samplePayer (samplePk 201)).1 :=
  compareTxSize_absent_early_return sampleEnvAbsent samplePayer (samplePk 201) rfl

end AltDemo
